import Mathlib

/-!
The S3 backend of skbn (`pkg/skbn/s3.go`).

A shallow embedding of the S3 backend of skbn: path resolution
(`validateS3Path`, `initS3Variables`), the four public operations with their
retry loops, and the `writerWrapper` adapter, together with the Go standard
library functions they call (`strings.Split`, `strings.Replace`,
`filepath.Join`, `filepath.Clean`, `filepath.Split`, Unix flavour).

Go strings are byte sequences; they are embedded as `List UInt8`.
-/

namespace Skbn

/-- A Go `string`: an immutable sequence of bytes. -/
abbrev GoString := List UInt8

/-- The byte `'/'`, `os.PathSeparator` on Unix. -/
def slash : UInt8 := 47

/-- The byte `'.'`. -/
def dot : UInt8 := 46

/-- An ASCII string literal as a Go string. -/
def lit (s : String) : GoString := s.toList.map (fun c => UInt8.ofNat c.toNat)

/-! ## Package `strings` -/

namespace strings

/-- Go `strings.Index(s, substr)`: the index of the first instance of `substr`
in `s`; `none` stands for the result `-1`. -/
def Index : GoString → GoString → Option Nat
  | [], substr => if substr.isPrefixOf [] then some 0 else none
  | c :: s, substr =>
    if substr.isPrefixOf (c :: s) then some 0
    else (Index s substr).map (fun i => i + 1)

/-- Go `strings.Count(s, substr)` for a one-byte `substr`, the branch
`bytealg.CountString(s, substr[0])`. -/
def CountByte (s : GoString) (c : UInt8) : Nat := s.count c

/-- The loop of Go `strings.genSplit(s, sep, 0, n)` once `n` has been set to
`Count(s, sep) + 1`: `n` here is the number of iterations left (`n - 1 - i` in
the source); every iteration cuts the text before the next separator off
`s`, and the rest of `s` is the last element. -/
def genSplitLoop (sep : GoString) : Nat → GoString → List GoString
  | 0, s => [s]
  | n + 1, s =>
    match Index s sep with
    | none => [s]
    | some m => s.take m :: genSplitLoop sep n (s.drop (m + sep.length))

/-- Go `strings.Split(s, sep)` for a one-byte separator `sep`, the only
shape this package calls it with (`strings.Split(path, "/")`). -/
def Split (s : GoString) (sep : UInt8) : List GoString :=
  genSplitLoop [sep] (CountByte s sep) s

/-- Go `strings.Join(elems, sep)`: the elements concatenated with `sep`
between them. -/
def Join : List GoString → GoString → GoString
  | [], _ => []
  | [e], _ => e
  | e :: e2 :: es, sep => e ++ sep ++ Join (e2 :: es) sep

/-- Go `strings.Replace(s, old, new, 1)`: the first instance of `old` in `s`
replaced by `new`. The source returns `s` unchanged when `old == new` or when
`old` does not occur; otherwise it copies `s[:j]`, `new` and `s[j+len(old):]`
for `j` the index of the first instance. -/
def Replace1 (s old new : GoString) : GoString :=
  if old = new then s
  else
    match Index s old with
    | none => s
    | some j => s.take j ++ new ++ s.drop (j + old.length)

end strings

/-! ## Package `path/filepath` (Unix) -/

namespace filepath

/-- The inner loop of the `..` case of `filepath.Clean`:
`for out.w > dotdot && !os.IsPathSeparator(out.index(out.w)) { out.w-- }`,
on the write index `w`; `buf` is the buffer content before the truncation. -/
def backtrackLoop (buf : GoString) (dotdot : Nat) : Nat → Nat
  | 0 => 0
  | w + 1 =>
    if w + 1 > dotdot ∧ buf.get? (w + 1) ≠ some slash then backtrackLoop buf dotdot w
    else w + 1

/-- The backtracking of the `..` case of `filepath.Clean` when
`out.w > dotdot`: `out.w--` followed by the inner loop; the result is the
buffer cut at the new write index. -/
def backtrack (out : GoString) (dotdot : Nat) : GoString :=
  out.take (backtrackLoop out dotdot (out.length - 1))

/-- The main loop of `filepath.Clean`. `rest` is the unread input `path[r:]`,
`out` the bytes written so far (`buf[:w]`), `dotdot` the index where `..`
must stop. -/
def cleanLoop (rooted : Bool) : GoString → GoString → Nat → GoString
  | [], out, _ => out
  | c :: t, out, dotdot =>
    if hc : c = slash then
      -- empty path element
      cleanLoop rooted t out dotdot
    else if c = dot ∧ (t = [] ∨ t.head? = some slash) then
      -- . element
      cleanLoop rooted t out dotdot
    else if c = dot ∧ t.head? = some dot ∧ (t.tail = [] ∨ t.tail.head? = some slash) then
      -- .. element: remove to last separator
      if out.length > dotdot then
        cleanLoop rooted t.tail (backtrack out dotdot) dotdot
      else if ¬ rooted then
        let out1 := if out.length > 0 then out ++ [slash] else out
        let out2 := out1 ++ [dot, dot]
        cleanLoop rooted t.tail out2 out2.length
      else
        cleanLoop rooted t.tail out dotdot
    else
      -- real path element: add slash if needed, then copy the element
      let out1 :=
        if (rooted ∧ out.length ≠ 1) ∨ (¬ rooted ∧ out.length ≠ 0) then out ++ [slash]
        else out
      cleanLoop rooted ((c :: t).dropWhile (fun b => b ≠ slash))
        (out1 ++ (c :: t).takeWhile (fun b => b ≠ slash)) dotdot
termination_by rest => rest.length
decreasing_by
  all_goals simp_wf
  all_goals first
    | omega
    | (have h1 : ((c :: t).dropWhile (fun b => !decide (b = slash))) =
          t.dropWhile (fun b => !decide (b = slash)) := by
        simp [List.dropWhile, hc]
       rw [h1]
       have := (@List.dropWhile_sublist _ t (fun b => !decide (b = slash))).length_le
       omega)

/-- Go `filepath.Clean(path)` on Unix (no volume name). -/
def Clean (path : GoString) : GoString :=
  if path = [] then [dot]
  else
    let rooted : Bool := path.head? = some slash
    let out := if rooted then cleanLoop rooted path.tail [slash] 1 else cleanLoop rooted path [] 0
    -- Turn empty string into "."
    if out.length = 0 then [dot] else out

/-- Go `filepath.Join(elem...)` on Unix: the elements from the first
non-empty one on are joined with `/` and the result is cleaned; the empty
string when every element is empty. -/
def Join : List GoString → GoString
  | [] => []
  | e :: es => if e ≠ [] then Clean (strings.Join (e :: es) [slash]) else Join es

/-- The index loop of Go `filepath.Split`:
`for i >= 0 && !os.IsPathSeparator(path[i]) { i-- }`, returning `i + 1`;
the argument is `i + 1`. -/
def splitIndex (path : GoString) : Nat → Nat
  | 0 => 0
  | i + 1 => if path.get? i ≠ some slash then splitIndex path i else i + 1

/-- Go `filepath.Split(path)`: `path[:i+1], path[i+1:]` for `i` the index of
the last separator. -/
def Split (path : GoString) : GoString × GoString :=
  let k := splitIndex path path.length
  (path.take k, path.drop k)

end filepath

/-! ## Package `skbn`, file `s3.go` -/

/-- A Go `error` value that is not `nil`: either built by `fmt.Errorf` in this
package or returned by the AWS SDK (`ε`). The Go type `error` is
`Option (GoError ε)`, with `none` for `nil`. -/
inductive GoError (ε : Type) where
  | errorf (msg : GoString) : GoError ε
  | sdk (e : ε) : GoError ε
  deriving DecidableEq, Repr

/-- The observable effects of the retry loops, in program order: a call of
`getNewSession`, a request sent to the service (with the bucket and the key
or prefix it names) and a call of `utils.Sleep`. -/
inductive Event where
  | session (attempt : Nat) : Event
  | request (attempt : Nat) (bucket key : GoString) : Event
  | sleep (arg : Nat) : Event
  deriving DecidableEq, Repr

/-- Whether an event is a request to the service. -/
def Event.isRequest : Event → Bool
  | .request _ _ _ => true
  | _ => false

/-- Whether an event is a call of `getNewSession`. -/
def Event.isSession : Event → Bool
  | .session _ => true
  | _ => false

/-- Whether an event is a call of `utils.Sleep`. -/
def Event.isSleep : Event → Bool
  | .sleep _ => true
  | _ => false

/-- Source `validateS3Path`: `nil` when the list has at least one element. -/
def validateS3Path {ε : Type} (pathSplit : List GoString) : Option (GoError ε) :=
  if pathSplit.length ≥ 1 then none
  else some (.errorf (lit "illegal path: " ++ filepath.Join pathSplit))

/-- Source `initS3Variables`: `split[0]` and `filepath.Join(split[1:]...)`;
`none` is the run-time panic of `split[0]` on an empty slice. -/
def initS3Variables (split : List GoString) : Option (GoString × GoString) :=
  match split.get? 0 with
  | none => none
  | some bucket => some (bucket, filepath.Join (split.drop 1))

/-- The retry loop of `GetClientToS3`, from the loop test on. `getNewSession`
gives the outcome of session construction on each attempt and `probe` the
error of the `ListObjects` request with `MaxKeys: 0` (`none` for `nil`). -/
def clientLoop {σ ε : Type} (getNewSession : Nat → Except ε σ)
    (probe : Nat → σ → GoString → Option ε) (bucket : GoString) (attempts : Nat)
    (attempt : Nat) (trace : List Event) :
    (Option σ × Option (GoError ε)) × List Event :=
  if attempt < attempts then
    match getNewSession (attempt + 1) with
    | .error err =>
      if attempt + 1 = attempts then
        ((none, some (.sdk err)), trace ++ [.session (attempt + 1)])
      else
        clientLoop getNewSession probe bucket attempts (attempt + 1)
          (trace ++ [.session (attempt + 1), .sleep (attempt + 1)])
    | .ok s =>
      let err := probe (attempt + 1) s bucket
      let trace1 := trace ++ [.session (attempt + 1), .request (attempt + 1) bucket []]
      if attempt + 1 = attempts ∧ err.isSome then
        ((none, err.map .sdk), trace1)
      else if err.isNone then
        ((some s, none), trace1)
      else
        clientLoop getNewSession probe bucket attempts (attempt + 1)
          (trace1 ++ [.sleep (attempt + 1)])
  else
    ((none, none), trace)
termination_by attempts - attempt
decreasing_by all_goals simp_wf; all_goals omega

/-- Source `GetClientToS3`: the result pair and the trace of effects; `none`
is a run-time panic. -/
def GetClientToS3 {σ ε : Type} (getNewSession : Nat → Except ε σ)
    (probe : Nat → σ → GoString → Option ε) (path : GoString) :
    Option ((Option σ × Option (GoError ε)) × List Event) :=
  let pSplit := strings.Split path slash
  match initS3Variables pSplit with
  | none => none
  | some (bucket, _) => some (clientLoop getNewSession probe bucket 3 0 [])

/-- The body of the loop over `objectOutput.Contents` in
`GetListOfFilesFromS3`: every key with `strings.Replace(line, s3Path, "", 1)`
applied, appended in order. -/
def outLines (s3Path : GoString) (contents : List GoString) : List GoString :=
  contents.foldl (fun acc line => acc ++ [strings.Replace1 line s3Path []]) []

/-- The retry loop of `GetListOfFilesFromS3`. `listObjects` gives, for each
attempt, the outcome of the `ListObjects` request: an error or the keys of
`objectOutput.Contents`. -/
def listLoop {ε : Type} (listObjects : Nat → GoString → GoString → Except ε (List GoString))
    (bucket s3Path : GoString) (attempts : Nat) (attempt : Nat) (trace : List Event) :
    (List GoString × Option (GoError ε)) × List Event :=
  if attempt < attempts then
    match listObjects (attempt + 1) bucket s3Path with
    | .error err =>
      if attempt + 1 = attempts then
        (([], some (.sdk err)), trace ++ [.request (attempt + 1) bucket s3Path])
      else
        listLoop listObjects bucket s3Path attempts (attempt + 1)
          (trace ++ [.request (attempt + 1) bucket s3Path, .sleep (attempt + 1)])
    | .ok contents =>
      ((outLines s3Path contents, none), trace ++ [.request (attempt + 1) bucket s3Path])
  else
    (([], none), trace)
termination_by attempts - attempt
decreasing_by all_goals simp_wf; all_goals omega

/-- Source `GetListOfFilesFromS3`; the session `iClient` is part of the
oracle `listObjects`. -/
def GetListOfFilesFromS3 {ε : Type}
    (listObjects : Nat → GoString → GoString → Except ε (List GoString)) (path : GoString) :
    Option ((List GoString × Option (GoError ε)) × List Event) :=
  let pSplit := strings.Split path slash
  match validateS3Path pSplit with
  | some err => some (([], some err), [])
  | none =>
    match initS3Variables pSplit with
    | none => none
    | some (bucket, s3Path) => some (listLoop listObjects bucket s3Path 3 0 [])

/-- The retry loop shared in shape by `DownloadFromS3` and `UploadToS3`:
`transfer` gives the error of the SDK call on each attempt (`none` for
`nil`). -/
def transferLoop {ε : Type} (transfer : Nat → GoString → GoString → Option ε)
    (bucket s3Path : GoString) (attempts : Nat) (attempt : Nat) (trace : List Event) :
    Option (GoError ε) × List Event :=
  if attempt < attempts then
    match transfer (attempt + 1) bucket s3Path with
    | some err =>
      if attempt + 1 = attempts then
        (some (.sdk err), trace ++ [.request (attempt + 1) bucket s3Path])
      else
        transferLoop transfer bucket s3Path attempts (attempt + 1)
          (trace ++ [.request (attempt + 1) bucket s3Path, .sleep (attempt + 1)])
    | none => (none, trace ++ [.request (attempt + 1) bucket s3Path])
  else
    (none, trace)
termination_by attempts - attempt
decreasing_by all_goals simp_wf; all_goals omega

/-- Source `DownloadFromS3`; `download` is the outcome of
`downloader.Download` on each attempt. The bytes the SDK hands to `writer`
through `writerWrapper` are outside this model of the retry loop; the adapter
itself is `writerWrapper.WriteAt` below. -/
def DownloadFromS3 {ε : Type} (download : Nat → GoString → GoString → Option ε)
    (path : GoString) : Option (Option (GoError ε) × List Event) :=
  let pSplit := strings.Split path slash
  match validateS3Path pSplit with
  | some err => some (some err, [])
  | none =>
    match initS3Variables pSplit with
    | none => none
    | some (bucket, s3Path) => some (transferLoop download bucket s3Path 3 0 [])

/-- Source `UploadToS3`; `upload` is the outcome of `uploader.Upload` on each
attempt, the position of `reader` being part of that outcome. -/
def UploadToS3 {ε : Type} (upload : Nat → GoString → GoString → Option ε)
    (toPath fromPath : GoString) : Option (Option (GoError ε) × List Event) :=
  let pSplit := strings.Split toPath slash
  match validateS3Path pSplit with
  | some err => some (some err, [])
  | none =>
    let pSplit1 :=
      if pSplit.length = 1 then pSplit ++ [(filepath.Split fromPath).2] else pSplit
    match initS3Variables pSplit1 with
    | none => none
    | some (bucket, s3Path) => some (transferLoop upload bucket s3Path 3 0 [])

/-- A Go `io.Writer` whose state is a value of `ω`: `Write(p)` returns
`(n, err)` and the new state. -/
structure Writer (ω ε : Type) where
  Write : List UInt8 → ω → (Int × Option ε) × ω

/-- Source `writerWrapper`: a struct holding an `io.Writer`. -/
structure writerWrapper (ω ε : Type) where
  w : Writer ω ε

/-- Source `writerWrapper.WriteAt`: `return ww.w.Write(p)`. -/
def writerWrapper.WriteAt {ω ε : Type} (ww : writerWrapper ω ε) (p : List UInt8)
    (_off : Int) : ω → (Int × Option ε) × ω :=
  ww.w.Write p

/-- A sequence of `WriteAt` calls `(p, off)` run in order from the sink state
`st`: the list of results returned and the final sink state. -/
def runWriteAt {ω ε : Type} (ww : writerWrapper ω ε) :
    List (List UInt8 × Int) → ω → List (Int × Option ε) × ω
  | [], st => ([], st)
  | (p, off) :: calls, st =>
    let r := ww.WriteAt p off st
    let rs := runWriteAt ww calls r.2
    (r.1 :: rs.1, rs.2)

/-- A sequential sink whose `Write` appends to the bytes held so far and
reports the number of bytes written, as `bytes.Buffer` does. -/
def appendSink (ε : Type) : Writer (List UInt8) ε where
  Write := fun p st => ((p.length, none), st ++ p)

/-! ## Notions used to state the properties -/

/-- The outcome of attempt `a` of `GetClientToS3`: the error of the step that
failed (session construction, or else the probe), or the session built when
both steps succeeded. -/
def clientAttempt {σ ε : Type} (getNewSession : Nat → Except ε σ)
    (probe : Nat → σ → GoString → Option ε) (bucket : GoString) (a : Nat) : Except ε σ :=
  match getNewSession a with
  | .error err => .error err
  | .ok s =>
    match probe a s bucket with
    | some err => .error err
    | none => .ok s

/-- The effects of attempt `a` of `GetClientToS3` before any sleep: the
session construction, and the probe request when the session was built. -/
def clientAttemptTrace {σ ε : Type} (getNewSession : Nat → Except ε σ)
    (bucket : GoString) (a : Nat) : List Event :=
  match getNewSession a with
  | .error _ => [.session a]
  | .ok _ => [.session a, .request a bucket []]

/-- The effects of a retry loop that stops at attempt `k`: for each earlier
attempt `a` the request then `Sleep(a)`, and last the request of attempt `k`. -/
def retryTrace (bucket key : GoString) (k : Nat) : List Event :=
  ((List.range (k - 1)).map
      (fun i => [Event.request (i + 1) bucket key, Event.sleep (i + 1)])).flatten
    ++ [Event.request k bucket key]

/-- The effects of `GetClientToS3` when its loop stops at attempt `k`: for
each earlier attempt its effects then `Sleep(a)`, and last the effects of
attempt `k`. -/
def clientRetryTrace {σ ε : Type} (getNewSession : Nat → Except ε σ)
    (bucket : GoString) (k : Nat) : List Event :=
  ((List.range (k - 1)).map
      (fun i => clientAttemptTrace getNewSession bucket (i + 1) ++ [Event.sleep (i + 1)])).flatten
    ++ clientAttemptTrace getNewSession bucket k

/-- Attempt `k` of `GetClientToS3` is the first on which both session
construction and the probe succeed, `s` being the session built on it: `k` is
within the budget of three and every earlier attempt failed at one of the two
steps. -/
def firstSuccess {σ ε : Type} (getNewSession : Nat → Except ε σ)
    (probe : Nat → σ → GoString → Option ε) (bucket : GoString) (k : Nat) (s : σ) : Prop :=
  1 ≤ k ∧ k ≤ 3 ∧ clientAttempt getNewSession probe bucket k = .ok s ∧
    ∀ a, 1 ≤ a → a < k → ∃ e, clientAttempt getNewSession probe bucket a = .error e

/-- The text `r` is `key` with the first (leftmost) occurrence of `old`
removed and the rest kept: `key` itself when `old` is empty or does not occur
in `key`; else `key = a ++ old ++ c` with no occurrence of `old` starting
before the end of `a`, and `r = a ++ c`. -/
def firstOccurrenceRemoved (old key r : GoString) : Prop :=
  ((old = [] ∨ ¬ old <:+: key) ∧ r = key) ∨
  (old ≠ [] ∧ ∃ a c, key = a ++ old ++ c ∧ r = a ++ c ∧
    ∀ i, i < a.length → ¬ old <+: key.drop i)

/-- A path segment that `filepath.Clean` copies as it is: not empty, without
`/`, and neither `.` nor `..`. -/
def plainSegment (seg : GoString) : Prop :=
  seg ≠ [] ∧ slash ∉ seg ∧ seg ≠ [dot] ∧ seg ≠ [dot, dot]

instance (seg : GoString) : Decidable (plainSegment seg) := by
  unfold plainSegment; infer_instance

/-! ## Lemmas on `strings.Split` -/

namespace strings

theorem Split_nil (c : UInt8) : Split [] c = [[]] := by
  simp [Split, CountByte, genSplitLoop]

theorem Split_cons (x : UInt8) (s : GoString) (c : UInt8) :
    Split (x :: s) c =
      if x = c then [] :: Split s c
      else match Split s c with
        | h :: t => (x :: h) :: t
        | [] => [] := by
  unfold Split CountByte
  by_cases hx : x = c
  · subst hx
    simp [genSplitLoop, Index, List.isPrefixOf]
  · have hx2 : ¬ c = x := fun h => hx h.symm
    rw [if_neg hx, List.count_cons_of_ne hx2]
    cases hn : s.count c with
    | zero => simp [genSplitLoop]
    | succ n =>
      simp only [genSplitLoop, Index, List.isPrefixOf, hx2]
      cases hi : Index s [c] with
      | none => simp [hx2]
      | some m => simp [hx2]

theorem Split_ne_nil (s : GoString) (c : UInt8) : Split s c ≠ [] := by
  unfold Split
  cases CountByte s c with
  | zero => simp [genSplitLoop]
  | succ n =>
    simp only [genSplitLoop]
    cases Index s [c] <;> simp

theorem Split_of_not_mem (s : GoString) (c : UInt8) (h : c ∉ s) : Split s c = [s] := by
  unfold Split CountByte
  rw [List.count_eq_zero_of_not_mem h]
  rfl

theorem Split_segments (s : GoString) (c : UInt8) : ∀ seg ∈ Split s c, c ∉ seg := by
  induction s with
  | nil => simp [Split_nil]
  | cons x s ih =>
    rw [Split_cons]
    by_cases hx : x = c
    · rw [if_pos hx]
      intro seg hseg
      rcases List.mem_cons.mp hseg with h | h
      · subst h; simp
      · exact ih seg h
    · rw [if_neg hx]
      cases hs : Split s c with
      | nil => simp
      | cons h t =>
        rw [hs] at ih
        intro seg hseg
        rcases List.mem_cons.mp hseg with h2 | h2
        · subst h2
          have := ih h (by simp)
          intro hmem
          rcases List.mem_cons.mp hmem with h3 | h3
          · exact hx h3.symm
          · exact this h3
        · exact ih seg (by simp [h2])

theorem Split_head (s : GoString) (c : UInt8) :
    (Split s c).head? = some (s.takeWhile (fun b => b ≠ c)) := by
  induction s with
  | nil => simp [Split_nil]
  | cons x s ih =>
    rw [Split_cons]
    by_cases hx : x = c
    · simp [hx]
    · rw [if_neg hx]
      cases hs : Split s c with
      | nil => exact absurd hs (Split_ne_nil s c)
      | cons h t =>
        rw [hs] at ih
        simp only [List.head?_cons, Option.some.injEq] at ih
        simp [hx, ih]

theorem Join_Split (s : GoString) (c : UInt8) : Join (Split s c) [c] = s := by
  induction s with
  | nil => simp [Split_nil, Join]
  | cons x s ih =>
    rw [Split_cons]
    by_cases hx : x = c
    · rw [if_pos hx]
      cases hs : Split s c with
      | nil => exact absurd hs (Split_ne_nil s c)
      | cons h t =>
        rw [hs] at ih
        simp [Join, ih, hx]
    · rw [if_neg hx]
      cases hs : Split s c with
      | nil => exact absurd hs (Split_ne_nil s c)
      | cons h t =>
        rw [hs] at ih
        cases t with
        | nil => simpa [Join] using ih
        | cons h2 t2 =>
          simp only [Join] at ih ⊢
          simp [← ih]

theorem Join_eq_intercalate (segs : List GoString) (sep : GoString) :
    Join segs sep = sep.intercalate segs := by
  induction segs with
  | nil => rfl
  | cons e es ih =>
    cases es with
    | nil => simp [Join, List.intercalate]
    | cons e2 es2 =>
      simp only [Join, ih]
      simp [List.intercalate]

theorem Index_some (s sub : GoString) (j : Nat) (h : Index s sub = some j) :
    sub <+: s.drop j ∧ ∀ i, i < j → ¬ sub <+: s.drop i := by
  induction s generalizing j with
  | nil =>
    simp only [Index] at h
    split at h
    · rename_i hp
      simp only [Option.some.injEq] at h
      subst h
      exact ⟨by simpa using List.isPrefixOf_iff_prefix.mp hp, fun i hi => by omega⟩
    · cases h
  | cons c t ih =>
    simp only [Index] at h
    split at h
    · rename_i hp
      simp only [Option.some.injEq] at h
      subst h
      exact ⟨by simpa using List.isPrefixOf_iff_prefix.mp hp, fun i hi => by omega⟩
    · rename_i hp
      cases hi : Index t sub with
      | none => rw [hi] at h; cases h
      | some j2 =>
        rw [hi] at h
        simp only [Option.map_some', Option.some.injEq] at h
        subst h
        obtain ⟨h1, h2⟩ := ih j2 hi
        refine ⟨by simpa using h1, ?_⟩
        intro i hlt
        cases i with
        | zero =>
          intro hpre
          exact hp (List.isPrefixOf_iff_prefix.mpr (by simpa using hpre))
        | succ i => simpa using h2 i (by omega)

theorem Index_none (s sub : GoString) (h : Index s sub = none) : ¬ sub <:+: s := by
  induction s with
  | nil =>
    simp only [Index] at h
    split at h
    · cases h
    · rename_i hp
      intro hin
      apply hp
      have : sub = [] := by simpa using hin
      subst this
      rfl
  | cons c t ih =>
    simp only [Index] at h
    split at h
    · cases h
    · rename_i hp
      have ht : Index t sub = none := by
        cases hi : Index t sub with
        | none => rfl
        | some j => rw [hi] at h; cases h
      intro hin
      rcases List.infix_cons_iff.mp hin with hpre | hin2
      · exact hp (List.isPrefixOf_iff_prefix.mpr hpre)
      · exact ih ht hin2

theorem Replace1_spec (key old : GoString) :
    ((old = [] ∨ ¬ old <:+: key) ∧ Replace1 key old [] = key) ∨
    (old ≠ [] ∧ ∃ a b, key = a ++ old ++ b ∧ Replace1 key old [] = a ++ b ∧
      ∀ i, i < a.length → ¬ old <+: key.drop i) := by
  by_cases ho : old = []
  · left
    exact ⟨Or.inl ho, by simp [Replace1, ho]⟩
  · cases hi : Index key old with
    | none =>
      left
      exact ⟨Or.inr (Index_none key old hi), by simp [Replace1, ho, hi]⟩
    | some j =>
      right
      obtain ⟨hpre, hmin⟩ := Index_some key old j hi
      obtain ⟨b, hb⟩ := hpre
      have hj : j ≤ key.length := by
        by_contra hlt
        have : key.drop j = [] := List.drop_eq_nil_of_le (by omega)
        rw [this] at hb
        simp at hb
        exact ho hb.1
      refine ⟨ho, key.take j, b, ?_, ?_, ?_⟩
      · rw [List.append_assoc, hb, List.take_append_drop]
      · have hd : key.drop (j + old.length) = b := by
          rw [← List.drop_drop, ← hb]
          simp
        simp [Replace1, ho, hi, hd]
      · intro i hlt
        apply hmin
        simpa [List.length_take, hj] using hlt

theorem Replace1_leading (key old : GoString) (h : old <+: key) :
    old ++ Replace1 key old [] = key := by
  obtain ⟨b, rfl⟩ := h
  by_cases ho : old = []
  · simp [Replace1, ho]
  · have hi : Index (old ++ b) old = some 0 := by
      cases old with
      | nil => exact absurd rfl ho
      | cons c t =>
        simp only [List.cons_append, Index]
        rw [if_pos]
        exact List.isPrefixOf_iff_prefix.mpr ⟨b, rfl⟩
    simp [Replace1, ho, hi]

end strings

/-! ## Lemmas on `filepath.Clean` and `filepath.Join` -/

namespace filepath

theorem takeWhile_segment (seg tl : GoString) (hs : slash ∉ seg)
    (htl : tl = [] ∨ tl.head? = some slash) :
    (seg ++ tl).takeWhile (fun b => b ≠ slash) = seg ∧
    (seg ++ tl).dropWhile (fun b => b ≠ slash) = tl := by
  induction seg with
  | nil =>
    rcases htl with h | h
    · subst h; simp
    · cases tl with
      | nil => simp
      | cons x xs =>
        simp only [List.head?_cons, Option.some.injEq] at h
        subst h
        simp
  | cons c t ih =>
    have hc : c ≠ slash := fun h => hs (by simp [h])
    have ht : slash ∉ t := fun h => hs (by simp [h])
    obtain ⟨h1, h2⟩ := ih ht
    constructor
    · simp only [List.cons_append]
      rw [List.takeWhile_cons_of_pos (by simpa using hc), h1]
    · simp only [List.cons_append]
      rw [List.dropWhile_cons_of_pos (by simpa using hc), h2]

theorem cleanLoop_plain (seg tl out : GoString) (dd : Nat) (hp : plainSegment seg)
    (htl : tl = [] ∨ tl.head? = some slash) :
    cleanLoop false (seg ++ tl) out dd =
      cleanLoop false tl ((if out.length ≠ 0 then out ++ [slash] else out) ++ seg) dd := by
  obtain ⟨hne, hs, hd1, hd2⟩ := hp
  obtain ⟨h1, h2⟩ := takeWhile_segment seg tl hs htl
  cases seg with
  | nil => exact absurd rfl hne
  | cons c t =>
    have hc : c ≠ slash := fun h => hs (by simp [h])
    have ht : slash ∉ t := fun h => hs (by simp [h])
    simp only [List.cons_append] at h1 h2 ⊢
    have hn2 : ¬ (c = dot ∧ (t ++ tl = [] ∨ (t ++ tl).head? = some slash)) := by
      rintro ⟨hcd, h⟩
      subst hcd
      cases t with
      | nil => exact hd1 rfl
      | cons d t2 =>
        have hd : d ≠ slash := fun h => ht (by simp [h])
        rcases h with h | h
        · simp at h
        · simp only [List.cons_append, List.head?_cons, Option.some.injEq] at h
          exact hd h
    have hn3 : ¬ (c = dot ∧ (t ++ tl).head? = some dot ∧
        ((t ++ tl).tail = [] ∨ (t ++ tl).tail.head? = some slash)) := by
      rintro ⟨hcd, hh, h⟩
      subst hcd
      cases t with
      | nil => exact hd1 rfl
      | cons d t2 =>
        simp only [List.cons_append, List.head?_cons, Option.some.injEq] at hh
        subst hh
        cases t2 with
        | nil => exact hd2 rfl
        | cons e t3 =>
          have he : e ≠ slash := fun h => ht (by simp [h])
          rcases h with h | h
          · simp at h
          · simp only [List.cons_append, List.tail_cons, List.head?_cons,
              Option.some.injEq] at h
            exact he h
    rw [cleanLoop, dif_neg hc, if_neg hn2, if_neg hn3]
    simp only [h1, h2]
    simp

theorem cleanLoop_join (segs : List GoString) (hne : segs ≠ [])
    (hp : ∀ seg ∈ segs, plainSegment seg) (out : GoString) (dd : Nat) :
    cleanLoop false (strings.Join segs [slash]) out dd =
      (if out.length ≠ 0 then out ++ [slash] else out) ++ strings.Join segs [slash] := by
  induction segs generalizing out with
  | nil => exact absurd rfl hne
  | cons seg rest ih =>
    have hseg : plainSegment seg := hp seg (by simp)
    cases rest with
    | nil =>
      simp only [strings.Join]
      have := cleanLoop_plain seg [] out dd hseg (Or.inl rfl)
      simp only [List.append_nil] at this
      rw [this, cleanLoop]
    | cons seg2 rest2 =>
      simp only [strings.Join]
      rw [List.append_assoc,
        cleanLoop_plain seg ([slash] ++ strings.Join (seg2 :: rest2) [slash]) out dd hseg
          (Or.inr rfl)]
      simp only [List.singleton_append]
      rw [cleanLoop, dif_pos rfl,
        ih (by simp) (fun s hs => hp s (by simp [hs]))]
      have hlen : ((if out.length ≠ 0 then out ++ [slash] else out) ++ seg).length ≠ 0 := by
        have := hseg.1
        cases seg with
        | nil => exact absurd rfl this
        | cons c t => simp
      rw [if_pos hlen]
      simp

theorem Clean_join (segs : List GoString) (hne : segs ≠ [])
    (hp : ∀ seg ∈ segs, plainSegment seg) :
    Clean (strings.Join segs [slash]) = strings.Join segs [slash] := by
  have hcl := cleanLoop_join segs hne hp [] 0
  obtain ⟨c, t, hj, hc⟩ : ∃ c t, strings.Join segs [slash] = c :: t ∧ c ≠ slash := by
    cases segs with
    | nil => exact absurd rfl hne
    | cons seg rest =>
      obtain ⟨hne1, hs, _, _⟩ := hp seg (by simp)
      cases seg with
      | nil => exact absurd rfl hne1
      | cons c t =>
        have hc : c ≠ slash := fun h => hs (by simp [h])
        cases rest with
        | nil => exact ⟨c, t, by simp [strings.Join], hc⟩
        | cons r rs =>
          exact ⟨c, t ++ [slash] ++ strings.Join (r :: rs) [slash], by simp [strings.Join], hc⟩
  rw [hj] at hcl ⊢
  simp only [List.length_nil, ne_eq, not_true_eq_false, if_false, List.nil_append] at hcl
  unfold Clean
  simp [hc, hcl]

theorem Join_plain (segs : List GoString) (hp : ∀ seg ∈ segs, plainSegment seg) :
    Join segs = strings.Join segs [slash] := by
  cases segs with
  | nil => rfl
  | cons seg rest =>
    have hseg : plainSegment seg := hp seg (by simp)
    simp only [Join]
    rw [if_pos hseg.1]
    exact Clean_join (seg :: rest) (by simp) hp

end filepath

/-! ## Path resolution never fails on a split path -/

theorem validateS3Path_Split {ε : Type} (path : GoString) :
    @validateS3Path ε (strings.Split path slash) = none := by
  have h := strings.Split_ne_nil path slash
  cases hs : strings.Split path slash with
  | nil => exact absurd hs h
  | cons b r => simp [validateS3Path]

theorem initS3Variables_cons (bucket : GoString) (rest : List GoString) :
    initS3Variables (bucket :: rest) = some (bucket, filepath.Join rest) := by
  simp [initS3Variables]

theorem initS3Variables_Split (path : GoString) :
    ∃ bucket rest, strings.Split path slash = bucket :: rest ∧
      initS3Variables (strings.Split path slash) = some (bucket, filepath.Join rest) := by
  have h := strings.Split_ne_nil path slash
  cases hs : strings.Split path slash with
  | nil => exact absurd hs h
  | cons b r => exact ⟨b, r, rfl, initS3Variables_cons b r⟩

/-! ## The retry loops, unfolded -/

theorem transferLoop_retry {ε : Type} (transfer : Nat → GoString → GoString → Option ε)
    (b k : GoString) (attempts attempt : Nat) (tr : List Event) (e : ε)
    (hlt : attempt + 1 < attempts) (h : transfer (attempt + 1) b k = some e) :
    transferLoop transfer b k attempts attempt tr =
      transferLoop transfer b k attempts (attempt + 1)
        (tr ++ [.request (attempt + 1) b k, .sleep (attempt + 1)]) := by
  rw [transferLoop]
  have h1 : attempt < attempts := by omega
  have h2 : ¬ attempt + 1 = attempts := by omega
  simp [h, h1, h2]

theorem transferLoop_last {ε : Type} (transfer : Nat → GoString → GoString → Option ε)
    (b k : GoString) (attempts attempt : Nat) (tr : List Event) (e : ε)
    (hlt : attempt + 1 = attempts) (h : transfer (attempt + 1) b k = some e) :
    transferLoop transfer b k attempts attempt tr =
      (some (.sdk e), tr ++ [.request (attempt + 1) b k]) := by
  subst hlt
  rw [transferLoop]
  simp [h]

theorem transferLoop_ok {ε : Type} (transfer : Nat → GoString → GoString → Option ε)
    (b k : GoString) (attempts attempt : Nat) (tr : List Event)
    (hlt : attempt < attempts) (h : transfer (attempt + 1) b k = none) :
    transferLoop transfer b k attempts attempt tr =
      (none, tr ++ [.request (attempt + 1) b k]) := by
  rw [transferLoop]
  simp [h, hlt]

theorem listLoop_retry {ε : Type}
    (listObjects : Nat → GoString → GoString → Except ε (List GoString))
    (b k : GoString) (attempts attempt : Nat) (tr : List Event) (e : ε)
    (hlt : attempt + 1 < attempts) (h : listObjects (attempt + 1) b k = .error e) :
    listLoop listObjects b k attempts attempt tr =
      listLoop listObjects b k attempts (attempt + 1)
        (tr ++ [.request (attempt + 1) b k, .sleep (attempt + 1)]) := by
  rw [listLoop]
  have h1 : attempt < attempts := by omega
  have h2 : ¬ attempt + 1 = attempts := by omega
  simp [h, h1, h2]

theorem listLoop_last {ε : Type}
    (listObjects : Nat → GoString → GoString → Except ε (List GoString))
    (b k : GoString) (attempts attempt : Nat) (tr : List Event) (e : ε)
    (hlt : attempt + 1 = attempts) (h : listObjects (attempt + 1) b k = .error e) :
    listLoop listObjects b k attempts attempt tr =
      (([], some (.sdk e)), tr ++ [.request (attempt + 1) b k]) := by
  subst hlt
  rw [listLoop]
  simp [h]

theorem listLoop_ok {ε : Type}
    (listObjects : Nat → GoString → GoString → Except ε (List GoString))
    (b k : GoString) (attempts attempt : Nat) (tr : List Event) (keys : List GoString)
    (hlt : attempt < attempts) (h : listObjects (attempt + 1) b k = .ok keys) :
    listLoop listObjects b k attempts attempt tr =
      ((outLines k keys, none), tr ++ [.request (attempt + 1) b k]) := by
  rw [listLoop]
  simp [h, hlt]

theorem clientLoop_retry {σ ε : Type} (getNewSession : Nat → Except ε σ)
    (probe : Nat → σ → GoString → Option ε) (b : GoString) (attempts attempt : Nat)
    (tr : List Event) (e : ε) (hlt : attempt + 1 < attempts)
    (h : clientAttempt getNewSession probe b (attempt + 1) = .error e) :
    clientLoop getNewSession probe b attempts attempt tr =
      clientLoop getNewSession probe b attempts (attempt + 1)
        (tr ++ clientAttemptTrace getNewSession b (attempt + 1) ++ [.sleep (attempt + 1)]) := by
  rw [clientLoop]
  have h1 : attempt < attempts := by omega
  have h2 : ¬ attempt + 1 = attempts := by omega
  unfold clientAttempt at h
  unfold clientAttemptTrace
  cases hs : getNewSession (attempt + 1) with
  | error err => simp [h1, h2]
  | ok s =>
    cases hp : probe (attempt + 1) s b with
    | none => simp [hs, hp] at h
    | some err => simp [h1, h2, hp]

theorem clientLoop_last {σ ε : Type} (getNewSession : Nat → Except ε σ)
    (probe : Nat → σ → GoString → Option ε) (b : GoString) (attempts attempt : Nat)
    (tr : List Event) (e : ε) (hlt : attempt + 1 = attempts)
    (h : clientAttempt getNewSession probe b (attempt + 1) = .error e) :
    clientLoop getNewSession probe b attempts attempt tr =
      ((none, some (.sdk e)), tr ++ clientAttemptTrace getNewSession b (attempt + 1)) := by
  subst hlt
  rw [clientLoop]
  unfold clientAttempt at h
  unfold clientAttemptTrace
  cases hs : getNewSession (attempt + 1) with
  | error err =>
    simp [hs] at h
    simp [h]
  | ok s =>
    cases hp : probe (attempt + 1) s b with
    | none => simp [hs, hp] at h
    | some err =>
      simp [hs, hp] at h
      simp [hp, h]

theorem clientLoop_ok {σ ε : Type} (getNewSession : Nat → Except ε σ)
    (probe : Nat → σ → GoString → Option ε) (b : GoString) (attempts attempt : Nat)
    (tr : List Event) (s : σ) (hlt : attempt < attempts)
    (h : clientAttempt getNewSession probe b (attempt + 1) = .ok s) :
    clientLoop getNewSession probe b attempts attempt tr =
      ((some s, none), tr ++ clientAttemptTrace getNewSession b (attempt + 1)) := by
  rw [clientLoop]
  unfold clientAttempt at h
  unfold clientAttemptTrace
  cases hs : getNewSession (attempt + 1) with
  | error err => simp [hs] at h
  | ok s1 =>
    cases hp : probe (attempt + 1) s1 b with
    | some err => simp [hs, hp] at h
    | none =>
      simp [hs, hp] at h
      subst h
      simp [hlt, hp]

/-! ## The public operations in terms of their loops -/

theorem GetClientToS3_eq {σ ε : Type} (getNewSession : Nat → Except ε σ)
    (probe : Nat → σ → GoString → Option ε) (path : GoString) :
    ∃ b k, initS3Variables (strings.Split path slash) = some (b, k) ∧
      GetClientToS3 getNewSession probe path = some (clientLoop getNewSession probe b 3 0 []) := by
  obtain ⟨b, rest, _, hi⟩ := initS3Variables_Split path
  exact ⟨b, _, hi, by simp [GetClientToS3, hi]⟩

theorem GetListOfFilesFromS3_eq {ε : Type}
    (listObjects : Nat → GoString → GoString → Except ε (List GoString)) (path : GoString) :
    ∃ b k, initS3Variables (strings.Split path slash) = some (b, k) ∧
      GetListOfFilesFromS3 listObjects path = some (listLoop listObjects b k 3 0 []) := by
  obtain ⟨b, rest, _, hi⟩ := initS3Variables_Split path
  exact ⟨b, _, hi, by simp [GetListOfFilesFromS3, validateS3Path_Split, hi]⟩

theorem DownloadFromS3_eq {ε : Type} (download : Nat → GoString → GoString → Option ε)
    (path : GoString) :
    ∃ b k, initS3Variables (strings.Split path slash) = some (b, k) ∧
      DownloadFromS3 download path = some (transferLoop download b k 3 0 []) := by
  obtain ⟨b, rest, _, hi⟩ := initS3Variables_Split path
  exact ⟨b, _, hi, by simp [DownloadFromS3, validateS3Path_Split, hi]⟩

theorem UploadToS3_eq {ε : Type} (upload : Nat → GoString → GoString → Option ε)
    (toPath fromPath : GoString) :
    ∃ b rest, strings.Split toPath slash = b :: rest ∧
      UploadToS3 upload toPath fromPath =
        some (transferLoop upload b
          (filepath.Join (if rest = [] then [(filepath.Split fromPath).2] else rest)) 3 0 []) := by
  obtain ⟨b, rest, hs, _⟩ := initS3Variables_Split toPath
  refine ⟨b, rest, hs, ?_⟩
  unfold UploadToS3
  simp only [validateS3Path_Split, hs]
  cases rest with
  | nil => simp [initS3Variables, validateS3Path]
  | cons r rs => simp [initS3Variables, validateS3Path]

theorem outLines_eq_map (s3Path : GoString) (contents : List GoString) :
    outLines s3Path contents = contents.map (fun line => strings.Replace1 line s3Path []) := by
  unfold outLines
  have h : ∀ (acc : List GoString),
      contents.foldl (fun acc line => acc ++ [strings.Replace1 line s3Path []]) acc =
        acc ++ contents.map (fun line => strings.Replace1 line s3Path []) := by
    induction contents with
    | nil => intro acc; simp
    | cons c cs ih => intro acc; simp [ih]
  simpa using h []

theorem retryTrace_counts (b p : GoString) (k : Nat) (hk1 : 1 ≤ k) (hk3 : k ≤ 3) :
    ((retryTrace b p k).filter Event.isRequest).length = k ∧
    ((retryTrace b p k).filter Event.isSleep).length = k - 1 ∧
    (retryTrace b p k).getLast? = some (.request k b p) := by
  interval_cases k <;> simp [retryTrace, List.range_succ, Event.isRequest, Event.isSleep]

theorem transferLoop_success_at {ε : Type} (transfer : Nat → GoString → GoString → Option ε)
    (b p : GoString) (k : Nat) (hk1 : 1 ≤ k) (hk3 : k ≤ 3)
    (hf : ∀ a, 1 ≤ a → a < k → ∃ e, transfer a b p = some e)
    (hs : transfer k b p = none) :
    transferLoop transfer b p 3 0 [] = (none, retryTrace b p k) := by
  interval_cases k
  · rw [transferLoop_ok _ _ _ _ _ _ (by omega) hs]
    simp [retryTrace, List.range_succ]
  · obtain ⟨e1, h1⟩ := hf 1 (by omega) (by omega)
    rw [transferLoop_retry _ _ _ _ _ _ e1 (by omega) h1,
      transferLoop_ok _ _ _ _ _ _ (by omega) hs]
    simp [retryTrace, List.range_succ]
  · obtain ⟨e1, h1⟩ := hf 1 (by omega) (by omega)
    obtain ⟨e2, h2⟩ := hf 2 (by omega) (by omega)
    rw [transferLoop_retry _ _ _ _ _ _ e1 (by omega) h1,
      transferLoop_retry _ _ _ _ _ _ e2 (by omega) h2,
      transferLoop_ok _ _ _ _ _ _ (by omega) hs]
    simp [retryTrace, List.range_succ]

theorem listLoop_success_at {ε : Type}
    (listObjects : Nat → GoString → GoString → Except ε (List GoString))
    (b p : GoString) (k : Nat) (keys : List GoString) (hk1 : 1 ≤ k) (hk3 : k ≤ 3)
    (hf : ∀ a, 1 ≤ a → a < k → ∃ e, listObjects a b p = .error e)
    (hs : listObjects k b p = .ok keys) :
    listLoop listObjects b p 3 0 [] =
      ((keys.map (fun line => strings.Replace1 line p []), none), retryTrace b p k) := by
  rw [← outLines_eq_map]
  interval_cases k
  · rw [listLoop_ok _ _ _ _ _ _ _ (by omega) hs]
    simp [retryTrace, List.range_succ]
  · obtain ⟨e1, h1⟩ := hf 1 (by omega) (by omega)
    rw [listLoop_retry _ _ _ _ _ _ e1 (by omega) h1,
      listLoop_ok _ _ _ _ _ _ _ (by omega) hs]
    simp [retryTrace, List.range_succ]
  · obtain ⟨e1, h1⟩ := hf 1 (by omega) (by omega)
    obtain ⟨e2, h2⟩ := hf 2 (by omega) (by omega)
    rw [listLoop_retry _ _ _ _ _ _ e1 (by omega) h1,
      listLoop_retry _ _ _ _ _ _ e2 (by omega) h2,
      listLoop_ok _ _ _ _ _ _ _ (by omega) hs]
    simp [retryTrace, List.range_succ]

theorem clientLoop_success_at {σ ε : Type} (getNewSession : Nat → Except ε σ)
    (probe : Nat → σ → GoString → Option ε) (b : GoString) (k : Nat) (s : σ)
    (hk1 : 1 ≤ k) (hk3 : k ≤ 3)
    (hf : ∀ a, 1 ≤ a → a < k → ∃ e, clientAttempt getNewSession probe b a = .error e)
    (hs : clientAttempt getNewSession probe b k = .ok s) :
    clientLoop getNewSession probe b 3 0 [] =
      ((some s, none), clientRetryTrace getNewSession b k) := by
  interval_cases k
  · rw [clientLoop_ok _ _ _ _ _ _ _ (by omega) hs]
    simp [clientRetryTrace, List.range_succ]
  · obtain ⟨e1, h1⟩ := hf 1 (by omega) (by omega)
    rw [clientLoop_retry _ _ _ _ _ _ e1 (by omega) h1,
      clientLoop_ok _ _ _ _ _ _ _ (by omega) hs]
    simp [clientRetryTrace, List.range_succ]
  · obtain ⟨e1, h1⟩ := hf 1 (by omega) (by omega)
    obtain ⟨e2, h2⟩ := hf 2 (by omega) (by omega)
    rw [clientLoop_retry _ _ _ _ _ _ e1 (by omega) h1,
      clientLoop_retry _ _ _ _ _ _ e2 (by omega) h2,
      clientLoop_ok _ _ _ _ _ _ _ (by omega) hs]
    simp [clientRetryTrace, List.range_succ]

theorem clientLoop_all_fail {σ ε : Type} (getNewSession : Nat → Except ε σ)
    (probe : Nat → σ → GoString → Option ε) (b : GoString) (e1 e2 e3 : ε)
    (h1 : clientAttempt getNewSession probe b 1 = .error e1)
    (h2 : clientAttempt getNewSession probe b 2 = .error e2)
    (h3 : clientAttempt getNewSession probe b 3 = .error e3) :
    clientLoop getNewSession probe b 3 0 [] =
      ((none, some (.sdk e3)), clientRetryTrace getNewSession b 3) := by
  rw [clientLoop_retry _ _ _ _ _ _ e1 (by omega) h1,
    clientLoop_retry _ _ _ _ _ _ e2 (by omega) h2,
    clientLoop_last _ _ _ _ _ _ e3 (by omega) h3]
  simp [clientRetryTrace, List.range_succ]

/-! ## Retry behaviour -/

/-- C1: when every attempt fails, each of `GetClientToS3`,
`GetListOfFilesFromS3`, `DownloadFromS3` and `UploadToS3` makes exactly three
attempts, calls `utils.Sleep` exactly twice (`Sleep(1)` after attempt 1 and
`Sleep(2)` after attempt 2, none after attempt 3) and returns the error of the
third attempt, which is not `nil`. -/
theorem retry_all_attempts_fail {σ ε : Type}
    (getNewSession : Nat → Except ε σ) (probe : Nat → σ → GoString → Option ε)
    (listObjects : Nat → GoString → GoString → Except ε (List GoString))
    (download upload : Nat → GoString → GoString → Option ε)
    (path toPath fromPath : GoString) (eC eL eD eU : Nat → ε)
    (hC : ∀ a b, 1 ≤ a → a ≤ 3 → clientAttempt getNewSession probe b a = .error (eC a))
    (hL : ∀ a b k, 1 ≤ a → a ≤ 3 → listObjects a b k = .error (eL a))
    (hD : ∀ a b k, 1 ≤ a → a ≤ 3 → download a b k = some (eD a))
    (hU : ∀ a b k, 1 ≤ a → a ≤ 3 → upload a b k = some (eU a)) :
    (∃ b k tr, initS3Variables (strings.Split path slash) = some (b, k) ∧
      GetClientToS3 getNewSession probe path = some ((none, some (.sdk (eC 3))), tr) ∧
      tr = clientAttemptTrace getNewSession b 1 ++ [.sleep 1] ++
            clientAttemptTrace getNewSession b 2 ++ [.sleep 2] ++
            clientAttemptTrace getNewSession b 3 ∧
      tr.filter Event.isSession = [.session 1, .session 2, .session 3] ∧
      tr.filter Event.isSleep = [.sleep 1, .sleep 2]) ∧
    (∃ b k, initS3Variables (strings.Split path slash) = some (b, k) ∧
      GetListOfFilesFromS3 listObjects path =
        some (([], some (.sdk (eL 3))),
          [.request 1 b k, .sleep 1, .request 2 b k, .sleep 2, .request 3 b k])) ∧
    (∃ b k, initS3Variables (strings.Split path slash) = some (b, k) ∧
      DownloadFromS3 download path =
        some (some (.sdk (eD 3)),
          [.request 1 b k, .sleep 1, .request 2 b k, .sleep 2, .request 3 b k])) ∧
    (∃ b k, UploadToS3 upload toPath fromPath =
        some (some (.sdk (eU 3)),
          [.request 1 b k, .sleep 1, .request 2 b k, .sleep 2, .request 3 b k])) := by
  refine ⟨?_, ?_, ?_, ?_⟩
  · obtain ⟨b, k, hi, hg⟩ := GetClientToS3_eq getNewSession probe path
    refine ⟨b, k, _, hi, ?_, rfl, ?_, ?_⟩
    · rw [hg, clientLoop_retry _ _ _ _ _ _ (eC 1) (by omega) (hC 1 b (by omega) (by omega)),
        clientLoop_retry _ _ _ _ _ _ (eC 2) (by omega) (hC 2 b (by omega) (by omega)),
        clientLoop_last _ _ _ _ _ _ (eC 3) (by omega) (hC 3 b (by omega) (by omega))]
      simp
    · unfold clientAttemptTrace
      cases getNewSession 1 <;> cases getNewSession 2 <;> cases getNewSession 3 <;>
        simp [Event.isSession]
    · unfold clientAttemptTrace
      cases getNewSession 1 <;> cases getNewSession 2 <;> cases getNewSession 3 <;>
        simp [Event.isSleep]
  · obtain ⟨b, k, hi, hg⟩ := GetListOfFilesFromS3_eq listObjects path
    refine ⟨b, k, hi, ?_⟩
    rw [hg, listLoop_retry _ _ _ _ _ _ (eL 1) (by omega) (hL 1 b k (by omega) (by omega)),
      listLoop_retry _ _ _ _ _ _ (eL 2) (by omega) (hL 2 b k (by omega) (by omega)),
      listLoop_last _ _ _ _ _ _ (eL 3) (by omega) (hL 3 b k (by omega) (by omega))]
    simp
  · obtain ⟨b, k, hi, hg⟩ := DownloadFromS3_eq download path
    refine ⟨b, k, hi, ?_⟩
    rw [hg, transferLoop_retry _ _ _ _ _ _ (eD 1) (by omega) (hD 1 b k (by omega) (by omega)),
      transferLoop_retry _ _ _ _ _ _ (eD 2) (by omega) (hD 2 b k (by omega) (by omega)),
      transferLoop_last _ _ _ _ _ _ (eD 3) (by omega) (hD 3 b k (by omega) (by omega))]
    simp
  · obtain ⟨b, rest, _, hg⟩ := UploadToS3_eq upload toPath fromPath
    refine ⟨b, filepath.Join (if rest = [] then [(filepath.Split fromPath).2] else rest), ?_⟩
    rw [hg, transferLoop_retry _ _ _ _ _ _ (eU 1) (by omega) (hU 1 b _ (by omega) (by omega)),
      transferLoop_retry _ _ _ _ _ _ (eU 2) (by omega) (hU 2 b _ (by omega) (by omega)),
      transferLoop_last _ _ _ _ _ _ (eU 3) (by omega) (hU 3 b _ (by omega) (by omega))]
    simp

theorem retry_all_attempts_fail_witness :
    (∀ a : Nat, ∀ b k : GoString, 1 ≤ a → a ≤ 3 →
      (fun (n : Nat) (_ _ : GoString) => some n) a b k = some (id a)) ∧
    (∃ b k, initS3Variables (strings.Split (lit "bucket/a") slash) = some (b, k) ∧
      GetListOfFilesFromS3
          (fun (n : Nat) (_ _ : GoString) => (Except.error n : Except Nat (List GoString)))
          (lit "bucket/a") =
        some (([], some (.sdk 3)),
          [.request 1 b k, .sleep 1, .request 2 b k, .sleep 2, .request 3 b k])) ∧
    (∃ b k, UploadToS3 (fun (n : Nat) (_ _ : GoString) => some n) (lit "bucket")
          (lit "/tmp/report.csv") =
        some (some (.sdk 3),
          [.request 1 b k, .sleep 1, .request 2 b k, .sleep 2, .request 3 b k])) :=
  ⟨fun _ _ _ _ _ => rfl,
    (@retry_all_attempts_fail Unit Nat (fun n => Except.error n) (fun _ _ _ => none)
      (fun n _ _ => Except.error n) (fun n _ _ => some n) (fun n _ _ => some n)
      (lit "bucket/a") (lit "bucket") (lit "/tmp/report.csv") id id id id
      (fun _ _ _ _ => rfl) (fun _ _ _ _ _ => rfl) (fun _ _ _ _ _ => rfl)
      (fun _ _ _ _ _ => rfl)).2.1,
    (@retry_all_attempts_fail Unit Nat (fun n => Except.error n) (fun _ _ _ => none)
      (fun n _ _ => Except.error n) (fun n _ _ => some n) (fun n _ _ => some n)
      (lit "bucket/a") (lit "bucket") (lit "/tmp/report.csv") id id id id
      (fun _ _ _ _ => rfl) (fun _ _ _ _ _ => rfl) (fun _ _ _ _ _ => rfl)
      (fun _ _ _ _ _ => rfl)).2.2.2⟩

/-- C2: for `GetListOfFilesFromS3`, `DownloadFromS3` and `UploadToS3` and
every `k` with `1 ≤ k ≤ 3`, when the network operation fails on attempts
`1..k-1` and succeeds on attempt `k`, the function returns the success result
of attempt `k` with a `nil` error, makes exactly `k` attempts, the last one
being the successful one, and calls `utils.Sleep` exactly `k - 1` times. -/
theorem retry_success_at_attempt {ε : Type}
    (listObjects : Nat → GoString → GoString → Except ε (List GoString))
    (download upload : Nat → GoString → GoString → Option ε)
    (path toPath fromPath : GoString) (k : Nat) (keys : List GoString)
    (hk1 : 1 ≤ k) (hk3 : k ≤ 3)
    (hLf : ∀ a b p, 1 ≤ a → a < k → ∃ e, listObjects a b p = .error e)
    (hLs : ∀ b p, listObjects k b p = .ok keys)
    (hDf : ∀ a b p, 1 ≤ a → a < k → ∃ e, download a b p = some e)
    (hDs : ∀ b p, download k b p = none)
    (hUf : ∀ a b p, 1 ≤ a → a < k → ∃ e, upload a b p = some e)
    (hUs : ∀ b p, upload k b p = none) :
    (∃ b p tr, initS3Variables (strings.Split path slash) = some (b, p) ∧
      GetListOfFilesFromS3 listObjects path =
        some ((keys.map (fun line => strings.Replace1 line p []), none), tr) ∧
      tr = retryTrace b p k ∧
      (tr.filter Event.isRequest).length = k ∧ (tr.filter Event.isSleep).length = k - 1 ∧
      tr.getLast? = some (.request k b p)) ∧
    (∃ b p tr, initS3Variables (strings.Split path slash) = some (b, p) ∧
      DownloadFromS3 download path = some (none, tr) ∧
      tr = retryTrace b p k ∧
      (tr.filter Event.isRequest).length = k ∧ (tr.filter Event.isSleep).length = k - 1 ∧
      tr.getLast? = some (.request k b p)) ∧
    (∃ b p tr, UploadToS3 upload toPath fromPath = some (none, tr) ∧
      tr = retryTrace b p k ∧
      (tr.filter Event.isRequest).length = k ∧ (tr.filter Event.isSleep).length = k - 1 ∧
      tr.getLast? = some (.request k b p)) := by
  refine ⟨?_, ?_, ?_⟩
  · obtain ⟨b, p, hi, hg⟩ := GetListOfFilesFromS3_eq listObjects path
    obtain ⟨c1, c2, c3⟩ := retryTrace_counts b p k hk1 hk3
    refine ⟨b, p, _, hi, ?_, rfl, c1, c2, c3⟩
    rw [hg, listLoop_success_at listObjects b p k keys hk1 hk3
      (fun a h1 h2 => hLf a b p h1 h2) (hLs b p)]
  · obtain ⟨b, p, hi, hg⟩ := DownloadFromS3_eq download path
    obtain ⟨c1, c2, c3⟩ := retryTrace_counts b p k hk1 hk3
    refine ⟨b, p, _, hi, ?_, rfl, c1, c2, c3⟩
    rw [hg, transferLoop_success_at download b p k hk1 hk3
      (fun a h1 h2 => hDf a b p h1 h2) (hDs b p)]
  · obtain ⟨b, rest, _, hg⟩ := UploadToS3_eq upload toPath fromPath
    obtain ⟨c1, c2, c3⟩ := retryTrace_counts b
      (filepath.Join (if rest = [] then [(filepath.Split fromPath).2] else rest)) k hk1 hk3
    refine ⟨b, _, _, ?_, rfl, c1, c2, c3⟩
    rw [hg, transferLoop_success_at upload b _ k hk1 hk3
      (fun a h1 h2 => hUf a b _ h1 h2) (hUs b _)]

/-- An oracle that fails on attempts 1 and 2 and succeeds from attempt 3 on. -/
theorem retry_success_at_attempt_witness :
    (∀ a : Nat, ∀ b p : GoString, 1 ≤ a → a < 3 →
      ∃ e, (fun (n : Nat) (_ _ : GoString) => if n < 3 then some n else none) a b p = some e) ∧
    (∃ b p tr, UploadToS3 (fun (n : Nat) (_ _ : GoString) => if n < 3 then some n else none)
        (lit "bucket") (lit "/tmp/report.csv") = some (none, tr) ∧
      tr = retryTrace b p 3 ∧
      (tr.filter Event.isRequest).length = 3 ∧ (tr.filter Event.isSleep).length = 3 - 1 ∧
      tr.getLast? = some (.request 3 b p)) ∧
    (∃ b p tr, initS3Variables (strings.Split (lit "bucket/a") slash) = some (b, p) ∧
      GetListOfFilesFromS3
        (fun (n : Nat) (_ _ : GoString) =>
          if n < 3 then (Except.error n : Except Nat (List GoString))
          else Except.ok [lit "a/x", lit "a/y"]) (lit "bucket/a") =
        some (([lit "a/x", lit "a/y"].map (fun line => strings.Replace1 line p []), none), tr) ∧
      tr = retryTrace b p 3 ∧
      (tr.filter Event.isRequest).length = 3 ∧ (tr.filter Event.isSleep).length = 3 - 1 ∧
      tr.getLast? = some (.request 3 b p)) :=
  ⟨fun a _ _ _ h => ⟨a, by simp [h]⟩,
    (@retry_success_at_attempt Nat
      (fun n _ _ => if n < 3 then Except.error n else Except.ok [lit "a/x", lit "a/y"])
      (fun n _ _ => if n < 3 then some n else none)
      (fun n _ _ => if n < 3 then some n else none)
      (lit "bucket/a") (lit "bucket") (lit "/tmp/report.csv") 3 [lit "a/x", lit "a/y"]
      (by decide) (by decide)
      (fun a _ _ _ h => ⟨a, by simp [h]⟩) (fun _ _ => by simp)
      (fun a _ _ _ h => ⟨a, by simp [h]⟩) (fun _ _ => by simp)
      (fun a _ _ _ h => ⟨a, by simp [h]⟩) (fun _ _ => by simp)).2.2,
    (@retry_success_at_attempt Nat
      (fun n _ _ => if n < 3 then Except.error n else Except.ok [lit "a/x", lit "a/y"])
      (fun n _ _ => if n < 3 then some n else none)
      (fun n _ _ => if n < 3 then some n else none)
      (lit "bucket/a") (lit "bucket") (lit "/tmp/report.csv") 3 [lit "a/x", lit "a/y"]
      (by decide) (by decide)
      (fun a _ _ _ h => ⟨a, by simp [h]⟩) (fun _ _ => by simp)
      (fun a _ _ _ h => ⟨a, by simp [h]⟩) (fun _ _ => by simp)
      (fun a _ _ _ h => ⟨a, by simp [h]⟩) (fun _ _ => by simp)).1⟩

theorem firstSuccess_unique {σ ε : Type} (getNewSession : Nat → Except ε σ)
    (probe : Nat → σ → GoString → Option ε) (b : GoString) (k k2 : Nat) (s s2 : σ)
    (h : firstSuccess getNewSession probe b k s)
    (h2 : firstSuccess getNewSession probe b k2 s2) : k = k2 ∧ s = s2 := by
  obtain ⟨hk1, _, hok, hf⟩ := h
  obtain ⟨hk1', _, hok2, hf2⟩ := h2
  have hkk : k = k2 := by
    rcases Nat.lt_trichotomy k k2 with hlt | heq | hgt
    · obtain ⟨e, he⟩ := hf2 k hk1 hlt
      rw [hok] at he; cases he
    · exact heq
    · obtain ⟨e, he⟩ := hf k2 hk1' hgt
      rw [hok2] at he; cases he
  subst hkk
  rw [hok] at hok2
  exact ⟨rfl, by cases hok2; rfl⟩

theorem clientAttempt_ok_iff {σ ε : Type} (getNewSession : Nat → Except ε σ)
    (probe : Nat → σ → GoString → Option ε) (b : GoString) (k : Nat) (s : σ) :
    clientAttempt getNewSession probe b k = .ok s ↔
      getNewSession k = .ok s ∧ probe k s b = none := by
  unfold clientAttempt
  cases hs : getNewSession k with
  | error err => simp
  | ok s1 =>
    simp only []
    cases hp : probe k s1 b with
    | some err =>
      simp only [Except.ok.injEq, reduceCtorEq, false_iff, not_and]
      intro h; subst h; simp [hp]
    | none =>
      simp only [Except.ok.injEq]
      constructor
      · intro h; subst h; exact ⟨rfl, hp⟩
      · intro h; exact h.1

theorem no_success_all_fail {σ ε : Type} (getNewSession : Nat → Except ε σ)
    (probe : Nat → σ → GoString → Option ε) (b : GoString)
    (h : ¬ ∃ k s, firstSuccess getNewSession probe b k s) :
    ∀ a, 1 ≤ a → a ≤ 3 → ∃ e, clientAttempt getNewSession probe b a = .error e := by
  have key : ∀ n, n ≤ 3 → ∀ a, 1 ≤ a → a ≤ n →
      ∃ e, clientAttempt getNewSession probe b a = .error e := by
    intro n
    induction n with
    | zero => intro _ a h1 h0; omega
    | succ n ih =>
      intro hn a h1 ha
      by_cases hlt : a ≤ n
      · exact ih (by omega) a h1 hlt
      · have ha' : a = n + 1 := by omega
        subst ha'
        cases hc : clientAttempt getNewSession probe b (n + 1) with
        | error e => exact ⟨e, rfl⟩
        | ok s =>
          exact absurd ⟨n + 1, s, h1, hn, hc, fun a2 h21 h22 => ih (by omega) a2 h21 (by omega)⟩ h
  intro a h1 h3
  exact key 3 (le_refl 3) a h1 h3

/-- C9: `GetClientToS3` returns a session with a `nil` error exactly when some
attempt `k ≤ 3` is the first on which both session construction and the probe
succeed, and the session returned is the one built on that attempt; otherwise
it returns a `nil` session with the error of the step that failed on attempt
3. It never returns a session whose probe failed and never `(nil, nil)`. -/
theorem GetClientToS3_outcome {σ ε : Type} (getNewSession : Nat → Except ε σ)
    (probe : Nat → σ → GoString → Option ε) (path : GoString) :
    ∃ b p r tr, initS3Variables (strings.Split path slash) = some (b, p) ∧
      GetClientToS3 getNewSession probe path = some (r, tr) ∧
      (∀ s, r = (some s, none) ↔ ∃ k, firstSuccess getNewSession probe b k s) ∧
      ((¬ ∃ k s, firstSuccess getNewSession probe b k s) →
        ∃ e, clientAttempt getNewSession probe b 3 = .error e ∧ r = (none, some (.sdk e))) ∧
      r ≠ (none, none) ∧
      (∀ s, r.1 = some s →
        r.2 = none ∧ ∃ k, 1 ≤ k ∧ k ≤ 3 ∧ getNewSession k = .ok s ∧ probe k s b = none) := by
  obtain ⟨b, p, hi, hg⟩ := GetClientToS3_eq getNewSession probe path
  by_cases hex : ∃ k s, firstSuccess getNewSession probe b k s
  · obtain ⟨k, s, hfs⟩ := hex
    have hr := clientLoop_success_at getNewSession probe b k s hfs.1 hfs.2.1 hfs.2.2.2 hfs.2.2.1
    refine ⟨b, p, (some s, none), _, hi, by rw [hg, hr], ?_, ?_, by simp, ?_⟩
    · intro s2
      constructor
      · intro h
        simp only [Prod.mk.injEq, Option.some.injEq, and_true] at h
        subst h
        exact ⟨k, hfs⟩
      · rintro ⟨k2, h2⟩
        rw [(firstSuccess_unique getNewSession probe b k k2 s s2 hfs h2).2]
    · intro hn
      exact absurd ⟨k, s, hfs⟩ hn
    · intro s2 h
      simp only [Option.some.injEq] at h
      subst h
      exact ⟨rfl, k, hfs.1, hfs.2.1,
        (clientAttempt_ok_iff getNewSession probe b k s).1 hfs.2.2.1⟩
  · have hall := no_success_all_fail getNewSession probe b hex
    obtain ⟨e1, h1⟩ := hall 1 (by omega) (by omega)
    obtain ⟨e2, h2⟩ := hall 2 (by omega) (by omega)
    obtain ⟨e3, h3⟩ := hall 3 (by omega) (by omega)
    have hr := clientLoop_all_fail getNewSession probe b e1 e2 e3 h1 h2 h3
    refine ⟨b, p, (none, some (.sdk e3)), _, hi, by rw [hg, hr], ?_, ?_, by simp, ?_⟩
    · intro s
      constructor
      · intro h; simp at h
      · rintro ⟨k, hk⟩
        exact absurd ⟨k, s, hk⟩ hex
    · intro _
      exact ⟨e3, h3, rfl⟩
    · intro s h
      simp at h

/-! ## The stream adapter -/

theorem runWriteAt_offsets {ω ε : Type} (ww : writerWrapper ω ε)
    (calls calls2 : List (List UInt8 × Int)) (st : ω)
    (h : calls2.map Prod.fst = calls.map Prod.fst) :
    runWriteAt ww calls2 st = runWriteAt ww calls st := by
  induction calls generalizing calls2 st with
  | nil =>
    cases calls2 with
    | nil => rfl
    | cons c cs => simp at h
  | cons c cs ih =>
    cases calls2 with
    | nil => simp at h
    | cons c2 cs2 =>
      obtain ⟨p, off⟩ := c
      obtain ⟨p2, off2⟩ := c2
      simp only [List.map_cons, List.cons.injEq] at h
      obtain ⟨hp, hrest⟩ := h
      subst hp
      simp only [runWriteAt, writerWrapper.WriteAt]
      rw [ih cs2 _ hrest]

theorem runWriteAt_append {ε : Type} (ww : writerWrapper (List UInt8) ε)
    (happend : ∀ p st, (ww.w.Write p st).2 = st ++ p)
    (calls : List (List UInt8 × Int)) (st : List UInt8) :
    (runWriteAt ww calls st).2 = st ++ (calls.map Prod.fst).flatten := by
  induction calls generalizing st with
  | nil => simp [runWriteAt]
  | cons c cs ih =>
    obtain ⟨p, off⟩ := c
    simp only [runWriteAt, writerWrapper.WriteAt, List.map_cons, List.flatten_cons]
    rw [ih, happend, List.append_assoc]

/-- C7: for every sequence of `WriteAt` calls on a `writerWrapper` over a
sink whose `Write` appends, the sink receives the payloads concatenated in
call order whatever the offsets are (two call sequences with the same
payloads give the same results and the same sink), and each `WriteAt` returns
what the sink's `Write` returns. -/
theorem writerWrapper_ignores_offsets {ε : Type} (ww : writerWrapper (List UInt8) ε)
    (calls : List (List UInt8 × Int)) (st : List UInt8)
    (happend : ∀ p st, (ww.w.Write p st).2 = st ++ p) :
    (runWriteAt ww calls st).2 = st ++ (calls.map Prod.fst).flatten ∧
    (∀ calls2 : List (List UInt8 × Int), calls2.map Prod.fst = calls.map Prod.fst →
      runWriteAt ww calls2 st = runWriteAt ww calls st) ∧
    (∀ p off st1, ww.WriteAt p off st1 = ww.w.Write p st1) :=
  ⟨runWriteAt_append ww happend calls st,
    fun calls2 h => runWriteAt_offsets ww calls calls2 st h,
    fun _ _ _ => rfl⟩

theorem writerWrapper_ignores_offsets_witness :
    (∀ p st, ((appendSink Nat).Write p st).2 = st ++ p) ∧
    (runWriteAt (writerWrapper.mk (appendSink Nat))
        [(lit "ABCDE", 5), (lit "FGH", 0)] []).2 = lit "ABCDEFGH" ∧
    runWriteAt (writerWrapper.mk (appendSink Nat)) [(lit "ABCDE", 0), (lit "FGH", 5)] [] =
      runWriteAt (writerWrapper.mk (appendSink Nat)) [(lit "ABCDE", 5), (lit "FGH", 0)] [] :=
  ⟨fun _ _ => rfl,
    (writerWrapper_ignores_offsets (writerWrapper.mk (appendSink Nat))
      [(lit "ABCDE", 5), (lit "FGH", 0)] [] (fun _ _ => rfl)).1.trans (by decide),
    (writerWrapper_ignores_offsets (writerWrapper.mk (appendSink Nat))
      [(lit "ABCDE", 5), (lit "FGH", 0)] [] (fun _ _ => rfl)).2.1
        [(lit "ABCDE", 0), (lit "FGH", 5)] (by decide)⟩

/-! ## Splitting never yields an empty list -/

theorem listLoop_no_errorf {ε : Type}
    (listObjects : Nat → GoString → GoString → Except ε (List GoString))
    (b k : GoString) (attempts : Nat) (msg : GoString) :
    ∀ (n attempt : Nat) (tr : List Event), attempts - attempt = n →
      (listLoop listObjects b k attempts attempt tr).1.2 ≠ some (.errorf msg) := by
  intro n
  induction n with
  | zero =>
    intro attempt tr hn
    rw [listLoop]
    have h : ¬ attempt < attempts := by omega
    simp [h]
  | succ n ih =>
    intro attempt tr hn
    have hlt : attempt < attempts := by omega
    cases ho : listObjects (attempt + 1) b k with
    | ok keys =>
      rw [listLoop_ok _ _ _ _ _ _ _ hlt ho]
      simp
    | error e =>
      by_cases hl : attempt + 1 = attempts
      · rw [listLoop_last _ _ _ _ _ _ e hl ho]
        simp
      · rw [listLoop_retry _ _ _ _ _ _ e (by omega) ho]
        exact ih (attempt + 1) _ (by omega)

theorem transferLoop_no_errorf {ε : Type} (transfer : Nat → GoString → GoString → Option ε)
    (b k : GoString) (attempts : Nat) (msg : GoString) :
    ∀ (n attempt : Nat) (tr : List Event), attempts - attempt = n →
      (transferLoop transfer b k attempts attempt tr).1 ≠ some (.errorf msg) := by
  intro n
  induction n with
  | zero =>
    intro attempt tr hn
    rw [transferLoop]
    have h : ¬ attempt < attempts := by omega
    simp [h]
  | succ n ih =>
    intro attempt tr hn
    have hlt : attempt < attempts := by omega
    cases ho : transfer (attempt + 1) b k with
    | none =>
      rw [transferLoop_ok _ _ _ _ _ _ hlt ho]
      simp
    | some e =>
      by_cases hl : attempt + 1 = attempts
      · rw [transferLoop_last _ _ _ _ _ _ e hl ho]
        simp
      · rw [transferLoop_retry _ _ _ _ _ _ e (by omega) ho]
        exact ih (attempt + 1) _ (by omega)

theorem validateS3Path_error_iff {ε : Type} (segs : List GoString) :
    @validateS3Path ε segs ≠ none ↔ segs = [] := by
  cases segs with
  | nil => simp [validateS3Path]
  | cons x xs => simp [validateS3Path]

/-- C10: for every path string, splitting on `/` yields at least one
segment, so `split[0]` in `initS3Variables` is in range at every call site
(none of the four public operations panics, `GetClientToS3` included) and
`validateS3Path` returns no error on any list the operations pass to it; its
error branch is taken for the empty list only. -/
theorem split_has_first_segment {σ ε : Type} (getNewSession : Nat → Except ε σ)
    (probe : Nat → σ → GoString → Option ε)
    (listObjects : Nat → GoString → GoString → Except ε (List GoString))
    (download upload : Nat → GoString → GoString → Option ε)
    (path fromPath : GoString) :
    1 ≤ (strings.Split path slash).length ∧
    (initS3Variables (strings.Split path slash)).isSome ∧
    @validateS3Path ε (strings.Split path slash) = none ∧
    (∀ segs : List GoString, @validateS3Path ε segs ≠ none ↔ segs = []) ∧
    (GetClientToS3 getNewSession probe path).isSome ∧
    (∃ r tr, GetListOfFilesFromS3 listObjects path = some (r, tr) ∧
      ∀ msg, r.2 ≠ some (.errorf msg)) ∧
    (∃ r tr, DownloadFromS3 download path = some (r, tr) ∧ ∀ msg, r ≠ some (.errorf msg)) ∧
    (∃ r tr, UploadToS3 upload path fromPath = some (r, tr) ∧
      ∀ msg, r ≠ some (.errorf msg)) := by
  obtain ⟨b, rest, hs, hi⟩ := initS3Variables_Split path
  refine ⟨by rw [hs]; simp, by rw [hi]; rfl, validateS3Path_Split path,
    validateS3Path_error_iff, ?_, ?_, ?_, ?_⟩
  · obtain ⟨b1, k1, _, hg⟩ := GetClientToS3_eq getNewSession probe path
    rw [hg]; rfl
  · obtain ⟨b1, k1, _, hg⟩ := GetListOfFilesFromS3_eq listObjects path
    exact ⟨_, _, hg, fun msg => listLoop_no_errorf listObjects b1 k1 3 msg 3 0 [] rfl⟩
  · obtain ⟨b1, k1, _, hg⟩ := DownloadFromS3_eq download path
    exact ⟨_, _, hg, fun msg => transferLoop_no_errorf download b1 k1 3 msg 3 0 [] rfl⟩
  · obtain ⟨b1, rest1, _, hg⟩ := UploadToS3_eq upload path fromPath
    exact ⟨_, _, hg, fun msg => transferLoop_no_errorf upload b1 _ 3 msg 3 0 [] rfl⟩

/-! ## Address resolution -/

theorem Join_nil_of_empty (rest : List GoString) (h : ∀ seg ∈ rest, seg = []) :
    filepath.Join rest = [] := by
  induction rest with
  | nil => rfl
  | cons e es ih =>
    have he : e = [] := h e (by simp)
    simp only [filepath.Join, he, ne_eq, not_true_eq_false, if_false]
    exact ih (fun seg hs => h seg (by simp [hs]))

/-- C3, as stated, fails: the key is not the `/`-intercalation of
`segments[1:]` for paths with an empty, `.` or `..` segment. `"b/a//c"` gives
key `"a/c"`, `"b/a/"` gives `"a"` and `"b/a/../c"` gives `"c"`. -/
theorem key_is_cleaned_not_intercalated :
    (strings.Split (lit "b/a//c") slash = [lit "b", lit "a", [], lit "c"] ∧
      initS3Variables (strings.Split (lit "b/a//c") slash) = some (lit "b", lit "a/c") ∧
      [slash].intercalate [lit "a", [], lit "c"] = lit "a//c" ∧ lit "a/c" ≠ lit "a//c") ∧
    (strings.Split (lit "b/a/") slash = [lit "b", lit "a", []] ∧
      initS3Variables (strings.Split (lit "b/a/") slash) = some (lit "b", lit "a") ∧
      [slash].intercalate [lit "a", []] = lit "a/" ∧ lit "a" ≠ lit "a/") ∧
    (strings.Split (lit "b/a/../c") slash = [lit "b", lit "a", lit "..", lit "c"] ∧
      initS3Variables (strings.Split (lit "b/a/../c") slash) = some (lit "b", lit "c") ∧
      [slash].intercalate [lit "a", lit "..", lit "c"] = lit "a/../c" ∧
      lit "c" ≠ lit "a/../c") := by
  have h1 : strings.Split (lit "b/a//c") slash = [lit "b", lit "a", [], lit "c"] := by decide
  have h2 : strings.Split (lit "b/a/") slash = [lit "b", lit "a", []] := by decide
  have h3 : strings.Split (lit "b/a/../c") slash = [lit "b", lit "a", lit "..", lit "c"] := by
    decide
  refine ⟨⟨h1, ?_, by decide, by decide⟩, ⟨h2, ?_, by decide, by decide⟩,
    ⟨h3, ?_, by decide, by decide⟩⟩
  · rw [h1]
    simp [initS3Variables, filepath.Join, filepath.Clean, filepath.cleanLoop, strings.Join,
      lit, slash, dot]
  · rw [h2]
    simp [initS3Variables, filepath.Join, filepath.Clean, filepath.cleanLoop, strings.Join,
      lit, slash, dot]
  · rw [h3]
    simp [initS3Variables, filepath.Join, filepath.Clean, filepath.cleanLoop, strings.Join,
      filepath.backtrack, filepath.backtrackLoop, lit, slash, dot]

theorem resolved_key (path : GoString) :
    ∃ bucket rest key, strings.Split path slash = bucket :: rest ∧
      initS3Variables (strings.Split path slash) = some (bucket, key) ∧
      ((∀ seg ∈ rest, seg = []) → key = []) ∧
      ((∀ seg ∈ rest, seg ≠ [] ∧ seg ≠ [dot] ∧ seg ≠ [dot, dot]) →
        key = [slash].intercalate rest) := by
  obtain ⟨bucket, rest, hs, hi⟩ := initS3Variables_Split path
  refine ⟨bucket, rest, _, hs, hi, Join_nil_of_empty rest, ?_⟩
  intro h
  have hseg := strings.Split_segments path slash
  rw [hs] at hseg
  rw [← strings.Join_eq_intercalate]
  apply filepath.Join_plain
  intro seg hmem
  obtain ⟨h1, h2, h3⟩ := h seg hmem
  exact ⟨h1, hseg seg (by simp [hmem]), h2, h3⟩

/-- C3, amended: for every path string, with `bucket :: rest` the path split
on `/`, `initS3Variables` returns `bucket` as container and a key that is the
`/`-intercalation of `rest` whenever every segment of `rest` is non-empty and
neither `.` nor `..`, and the empty string when `rest` is empty or holds
empty segments only. -/
theorem initS3Variables_key (path : GoString) :
    ∃ bucket rest key, strings.Split path slash = bucket :: rest ∧
      initS3Variables (strings.Split path slash) = some (bucket, key) ∧
      ((∀ seg ∈ rest, seg = []) → key = []) ∧
      ((∀ seg ∈ rest, seg ≠ [] ∧ seg ≠ [dot] ∧ seg ≠ [dot, dot]) →
        key = [slash].intercalate rest) := by
  obtain ⟨bucket, rest, hs, hi⟩ := initS3Variables_Split path
  refine ⟨bucket, rest, filepath.Join rest, hs, hi, Join_nil_of_empty rest, ?_⟩
  intro h
  have hseg : ∀ seg ∈ bucket :: rest, slash ∉ seg := by
    rw [← hs]; exact strings.Split_segments path slash
  have hplain : ∀ seg ∈ rest, plainSegment seg := fun seg hmem =>
    ⟨(h seg hmem).1, hseg seg (List.mem_cons_of_mem _ hmem), (h seg hmem).2.1,
      (h seg hmem).2.2⟩
  rw [filepath.Join_plain rest hplain, strings.Join_eq_intercalate]

/-! ## Listing -/

/-- C6: for the prefix `s3Path` sent to the service and the keys returned on
the successful attempt, `GetListOfFilesFromS3` returns a list of the same
length, in the same order, whose `i`-th element is the `i`-th key with the
first occurrence of `s3Path` removed and the rest kept (the key itself when
`s3Path` is empty or does not occur); no keys give an empty result and a
`nil` error. -/
theorem list_removes_first_occurrence {ε : Type}
    (listObjects : Nat → GoString → GoString → Except ε (List GoString))
    (path : GoString) (k : Nat) (keys : List GoString) (hk1 : 1 ≤ k) (hk3 : k ≤ 3)
    (hf : ∀ a b p, 1 ≤ a → a < k → ∃ e, listObjects a b p = .error e)
    (hs : ∀ b p, listObjects k b p = .ok keys) :
    ∃ (b s3Path : GoString) (res : List GoString) (tr : List Event),
      initS3Variables (strings.Split path slash) = some (b, s3Path) ∧
      GetListOfFilesFromS3 listObjects path = some ((res, none), tr) ∧
      tr = retryTrace b s3Path k ∧
      res.length = keys.length ∧
      (∀ (i : Nat) (key : GoString), keys[i]? = some key →
        ∃ r, res[i]? = some r ∧ firstOccurrenceRemoved s3Path key r) ∧
      (keys = [] → res = []) := by
  obtain ⟨b, p, hi, hg⟩ := GetListOfFilesFromS3_eq listObjects path
  refine ⟨b, p, keys.map (fun line => strings.Replace1 line p []), _, hi, ?_, rfl,
    by simp, ?_, ?_⟩
  · rw [hg, listLoop_success_at listObjects b p k keys hk1 hk3
      (fun a h1 h2 => hf a b p h1 h2) (hs b p)]
  · intro i key hkey
    refine ⟨strings.Replace1 key p [], by simp [List.getElem?_map, hkey], ?_⟩
    rcases strings.Replace1_spec key p with ⟨h1, h2⟩ | ⟨h1, a, c, h2, h3, h4⟩
    · exact Or.inl ⟨h1, h2⟩
    · exact Or.inr ⟨h1, a, c, h2, h3, h4⟩
  · intro h; simp [h]

theorem list_removes_first_occurrence_witness :
    (∀ b p : GoString,
      (fun (_ : Nat) (_ _ : GoString) =>
        (Except.ok [lit "a/x/a", lit "b"] : Except Nat (List GoString))) 1 b p =
        .ok [lit "a/x/a", lit "b"]) ∧
    (∃ (b s3Path : GoString) (res : List GoString) (tr : List Event),
      initS3Variables (strings.Split (lit "bucket/a") slash) = some (b, s3Path) ∧
      GetListOfFilesFromS3
        (fun (_ : Nat) (_ _ : GoString) =>
          (Except.ok [lit "a/x/a", lit "b"] : Except Nat (List GoString)))
        (lit "bucket/a") = some ((res, none), tr) ∧
      tr = retryTrace b s3Path 1 ∧
      res.length = [lit "a/x/a", lit "b"].length ∧
      (∀ (i : Nat) (key : GoString), [lit "a/x/a", lit "b"][i]? = some key →
        ∃ r, res[i]? = some r ∧ firstOccurrenceRemoved s3Path key r) ∧
      ([lit "a/x/a", lit "b"] = [] → res = [])) :=
  ⟨fun _ _ => rfl,
    @list_removes_first_occurrence Nat (fun _ _ _ => Except.ok [lit "a/x/a", lit "b"])
      (lit "bucket/a") 1 [lit "a/x/a", lit "b"] (by decide) (by decide)
      (fun a _ _ h1 h2 => by omega) (fun _ _ => rfl)⟩

/-- C5, as stated, fails on a path whose key part ends with `/`: for
`"bucket/a/"` the key part is `"a/"`, the prefix sent is `"a"`, and the keys
`"a/x"`, `"a/y"` come back as `"/x"`, `"/y"`, not `"x"`, `"y"`. -/
theorem list_trailing_slash_path :
    (lit "bucket/a/").drop ((lit "bucket").length + 1) = lit "a/" ∧
    (∀ key ∈ [lit "a/x", lit "a/y"], lit "a/" <+: key) ∧
    GetListOfFilesFromS3
        (fun (_ : Nat) (_ _ : GoString) =>
          (Except.ok [lit "a/x", lit "a/y"] : Except Nat (List GoString)))
        (lit "bucket/a/") =
      some (([lit "/x", lit "/y"], none), [.request 1 (lit "bucket") (lit "a")]) ∧
    [lit "/x", lit "/y"] ≠ [lit "x", lit "y"] ∧
    lit "a/" ++ lit "/x" ≠ lit "a/x" := by
  have h1 : strings.Split (lit "bucket/a/") slash = [lit "bucket", lit "a", []] := by decide
  have h2 : filepath.Join [lit "a", []] = lit "a" := by
    simp [filepath.Join, filepath.Clean, filepath.cleanLoop, strings.Join, lit, slash, dot]
  refine ⟨by decide, by decide, ?_, by decide, by decide⟩
  unfold GetListOfFilesFromS3
  simp only [h1, validateS3Path, initS3Variables, List.get?_cons_zero, List.drop_succ_cons,
    List.drop_zero, h2, List.length_cons, List.length_nil, ge_iff_le, le_add_iff_nonneg_left,
    zero_le, if_true]
  rw [listLoop_ok _ _ _ _ _ _ [lit "a/x", lit "a/y"] (by decide) rfl, outLines_eq_map]
  decide

/-- C5, amended: with `s3Path` the key the code sends, which is the key part
of the path when each of its segments is non-empty and neither `.` nor `..`,
and a successful listing whose keys all begin with `s3Path`,
`GetListOfFilesFromS3` returns in the service's order each key with its
leading `s3Path` removed, so that `s3Path ++ result[i] = keys[i]`. -/
theorem list_strips_sent_key {ε : Type}
    (listObjects : Nat → GoString → GoString → Except ε (List GoString))
    (path : GoString) (k : Nat) (keys : List GoString) (hk1 : 1 ≤ k) (hk3 : k ≤ 3)
    (hf : ∀ a b p, 1 ≤ a → a < k → ∃ e, listObjects a b p = .error e)
    (hs : ∀ b p, listObjects k b p = .ok keys)
    (hpre : ∀ key ∈ keys, filepath.Join ((strings.Split path slash).drop 1) <+: key) :
    ∃ (b : GoString) (rest : List GoString) (s3Path : GoString) (res : List GoString)
      (tr : List Event), strings.Split path slash = b :: rest ∧
      strings.Join (b :: rest) [slash] = path ∧
      initS3Variables (strings.Split path slash) = some (b, s3Path) ∧
      ((∀ seg ∈ rest, seg ≠ [] ∧ seg ≠ [dot] ∧ seg ≠ [dot, dot]) →
        s3Path = [slash].intercalate rest) ∧
      GetListOfFilesFromS3 listObjects path = some ((res, none), tr) ∧
      tr = retryTrace b s3Path k ∧
      res.length = keys.length ∧
      (∀ (i : Nat) (key : GoString), keys[i]? = some key → ∃ r, res[i]? = some r ∧ s3Path ++ r = key) := by
  obtain ⟨b, rest, s3Path, hsp, hi, _, hplain⟩ := resolved_key path
  obtain ⟨b2, p2, hi2, hg⟩ := GetListOfFilesFromS3_eq listObjects path
  rw [hi] at hi2
  simp only [Option.some.injEq, Prod.mk.injEq] at hi2
  obtain ⟨hb, hp⟩ := hi2
  subst hb hp
  have hkey : s3Path = filepath.Join ((strings.Split path slash).drop 1) := by
    have := initS3Variables_cons b rest
    rw [← hsp, hi] at this
    simp only [Option.some.injEq, Prod.mk.injEq, true_and] at this
    rw [this, hsp]
    rfl
  refine ⟨b, rest, s3Path, keys.map (fun line => strings.Replace1 line s3Path []), _, hsp,
    ?_, hi, hplain, ?_, rfl, by simp, ?_⟩
  · rw [← hsp]; exact strings.Join_Split path slash
  · rw [hg, listLoop_success_at listObjects b s3Path k keys hk1 hk3
      (fun a h1 h2 => hf a b s3Path h1 h2) (hs b s3Path)]
  · intro i key hk
    refine ⟨strings.Replace1 key s3Path [], by simp [List.getElem?_map, hk], ?_⟩
    apply strings.Replace1_leading
    rw [hkey]
    exact hpre key (List.getElem?_mem hk)

theorem list_strips_sent_key_witness :
    (∀ key ∈ [lit "a/x", lit "a/y"],
      filepath.Join ((strings.Split (lit "bucket/a") slash).drop 1) <+: key) ∧
    (∃ (b : GoString) (rest : List GoString) (s3Path : GoString) (res : List GoString)
      (tr : List Event), strings.Split (lit "bucket/a") slash = b :: rest ∧
      strings.Join (b :: rest) [slash] = lit "bucket/a" ∧
      initS3Variables (strings.Split (lit "bucket/a") slash) = some (b, s3Path) ∧
      ((∀ seg ∈ rest, seg ≠ [] ∧ seg ≠ [dot] ∧ seg ≠ [dot, dot]) →
        s3Path = [slash].intercalate rest) ∧
      GetListOfFilesFromS3
        (fun (_ : Nat) (_ _ : GoString) =>
          (Except.ok [lit "a/x", lit "a/y"] : Except Nat (List GoString)))
        (lit "bucket/a") = some ((res, none), tr) ∧
      tr = retryTrace b s3Path 1 ∧
      res.length = [lit "a/x", lit "a/y"].length ∧
      (∀ (i : Nat) (key : GoString), [lit "a/x", lit "a/y"][i]? = some key →
        ∃ r, res[i]? = some r ∧ s3Path ++ r = key)) := by
  have h1 : strings.Split (lit "bucket/a") slash = [lit "bucket", lit "a"] := by decide
  have h2 : filepath.Join [lit "a"] = lit "a" := by
    simp [filepath.Join, filepath.Clean, filepath.cleanLoop, strings.Join, lit, slash, dot]
  have hpre : ∀ key ∈ [lit "a/x", lit "a/y"],
      filepath.Join ((strings.Split (lit "bucket/a") slash).drop 1) <+: key := by
    rw [h1]
    simp only [List.drop_succ_cons, List.drop_zero, h2]
    decide
  exact ⟨hpre, @list_strips_sent_key Nat (fun _ _ _ => Except.ok [lit "a/x", lit "a/y"])
    (lit "bucket/a") 1 [lit "a/x", lit "a/y"] (by decide) (by decide)
    (fun a _ _ h1 h2 => by omega) (fun _ _ => rfl) hpre⟩

/-! ## Upload destination -/

namespace filepath

theorem splitIndex_spec (path : GoString) (i : Nat) :
    splitIndex path i ≤ i ∧
    (∀ j, splitIndex path i ≤ j → j < i → path[j]? ≠ some slash) ∧
    (splitIndex path i = 0 ∨ path[splitIndex path i - 1]? = some slash) := by
  induction i with
  | zero => simp [splitIndex]
  | succ i ih =>
    obtain ⟨h1, h2, h3⟩ := ih
    simp only [splitIndex, List.get?_eq_getElem?]
    by_cases hc : path[i]? = some slash
    · rw [if_neg (by simpa using hc)]
      refine ⟨le_refl _, fun j hj1 hj2 => by omega, Or.inr (by simpa using hc)⟩
    · rw [if_pos hc]
      refine ⟨by omega, ?_, h3⟩
      intro j hj1 hj2
      by_cases hji : j = i
      · subst hji; exact hc
      · exact h2 j hj1 (by omega)

theorem Split_base (path : GoString) :
    (Split path).1 ++ (Split path).2 = path ∧ slash ∉ (Split path).2 ∧
    ((Split path).1 = [] ∨ (Split path).1.getLast? = some slash) := by
  obtain ⟨h1, h2, h3⟩ := splitIndex_spec path path.length
  refine ⟨by simp [Split], ?_, ?_⟩
  · simp only [Split]
    intro hmem
    obtain ⟨n, hn⟩ := List.mem_iff_getElem?.mp hmem
    rw [List.getElem?_drop] at hn
    have hlt : splitIndex path path.length + n < path.length := by
      by_contra hge
      rw [List.getElem?_eq_none (by omega)] at hn
      cases hn
    exact h2 _ (by omega) hlt hn
  · simp only [Split]
    by_cases h0 : splitIndex path path.length = 0
    · left; rw [h0]; rfl
    · rcases h3 with h | h
      · exact absurd h h0
      · right
        rw [List.getLast?_take, if_neg h0, h]; rfl

theorem Join_single (file : GoString) (h : slash ∉ file) : Join [file] = file := by
  by_cases h0 : file = []
  · subst h0; simp [Join]
  · by_cases h1 : file = [dot]
    · subst h1
      simp [Join, Clean, cleanLoop, strings.Join, slash, dot]
    · by_cases h2 : file = [dot, dot]
      · subst h2
        simp [Join, Clean, cleanLoop, strings.Join, slash, dot]
      · rw [Join_plain [file] (by intro seg hs; simp at hs; subst hs; exact ⟨h0, h, h1, h2⟩)]
        rfl

end filepath

theorem transferLoop_trace {ε : Type} (transfer : Nat → GoString → GoString → Option ε)
    (b k : GoString) (attempts : Nat) :
    ∀ (n attempt : Nat) (tr : List Event), attempts - attempt = n →
      ∃ tl, (transferLoop transfer b k attempts attempt tr).2 = tr ++ tl ∧
        (∀ a b2 k2, Event.request a b2 k2 ∈ tl → b2 = b ∧ k2 = k) ∧
        (attempt < attempts → tl.head? = some (.request (attempt + 1) b k)) := by
  intro n
  induction n with
  | zero =>
    intro attempt tr hn
    rw [transferLoop]
    have h : ¬ attempt < attempts := by omega
    exact ⟨[], by simp [h], by simp, fun h2 => absurd h2 h⟩
  | succ n ih =>
    intro attempt tr hn
    have hlt : attempt < attempts := by omega
    cases ho : transfer (attempt + 1) b k with
    | none =>
      rw [transferLoop_ok _ _ _ _ _ _ hlt ho]
      exact ⟨[.request (attempt + 1) b k], rfl, by simp, fun _ => rfl⟩
    | some e =>
      by_cases hl : attempt + 1 = attempts
      · rw [transferLoop_last _ _ _ _ _ _ e hl ho]
        exact ⟨[.request (attempt + 1) b k], rfl, by simp, fun _ => rfl⟩
      · rw [transferLoop_retry _ _ _ _ _ _ e (by omega) ho]
        obtain ⟨tl, h1, h2, _⟩ := ih (attempt + 1)
          (tr ++ [.request (attempt + 1) b k, .sleep (attempt + 1)]) (by omega)
        refine ⟨[.request (attempt + 1) b k, .sleep (attempt + 1)] ++ tl,
          by rw [h1]; simp, ?_, fun _ => by simp⟩
        intro a b2 k2 hmem
        simp only [List.cons_append, List.nil_append, List.mem_cons, Event.request.injEq,
          reduceCtorEq, false_or] at hmem
        rcases hmem with ⟨_, hb, hk⟩ | hmem
        · exact ⟨hb, hk⟩
        · exact h2 a b2 k2 hmem

/-- C4, as stated, fails for a destination that resolves to an empty key
without being a single segment: `"bucket/"` resolves to bucket `"bucket"` and
key `""`, and the upload is sent under the key `""`, not `"report.csv"`. -/
theorem upload_trailing_slash_keeps_empty_key :
    initS3Variables (strings.Split (lit "bucket/") slash) = some (lit "bucket", []) ∧
    UploadToS3 (fun (_ : Nat) (_ _ : GoString) => (none : Option Nat)) (lit "bucket/")
        (lit "/tmp/report.csv") =
      some (none, [.request 1 (lit "bucket") []]) ∧
    (filepath.Split (lit "/tmp/report.csv")).2 = lit "report.csv" ∧
    ([] : GoString) ≠ lit "report.csv" := by
  have h1 : strings.Split (lit "bucket/") slash = [lit "bucket", []] := by decide
  have h2 : filepath.Join [([] : GoString)] = [] := by simp [filepath.Join]
  refine ⟨?_, ?_, by decide, by decide⟩
  · rw [h1]; simp [initS3Variables, h2]
  · unfold UploadToS3
    simp only [h1, validateS3Path, initS3Variables, List.length_cons, List.length_nil,
      ge_iff_le, le_add_iff_nonneg_left, zero_le, if_true, List.get?_cons_zero,
      List.drop_succ_cons, List.drop_zero, h2]
    simp only [Nat.reduceAdd, OfNat.ofNat_ne_one, if_false, List.get?_cons_zero,
      List.drop_succ_cons, List.drop_zero, h2]
    rw [transferLoop_ok _ _ _ _ _ _ (by decide) rfl]
    rfl

/-- C4, amended: for every destPath without `/` (a single segment, the case
`len(pSplit) == 1`) and every sourcePathHint, every request `UploadToS3`
sends, and it sends at least one, names the bucket destPath and as key the
base filename of sourcePathHint: the text after its last `/`. -/
theorem upload_key_is_base_filename {ε : Type}
    (upload : Nat → GoString → GoString → Option ε) (toPath fromPath : GoString)
    (h : slash ∉ toPath) :
    ∃ r tr file, UploadToS3 upload toPath fromPath = some (r, tr) ∧
      tr.head? = some (.request 1 toPath file) ∧
      (∀ a b k, Event.request a b k ∈ tr → b = toPath ∧ k = file) ∧
      file = (filepath.Split fromPath).2 ∧
      (∃ dir, fromPath = dir ++ file ∧ (dir = [] ∨ dir.getLast? = some slash)) ∧
      slash ∉ file := by
  obtain ⟨b, rest, hs, hg⟩ := UploadToS3_eq upload toPath fromPath
  rw [strings.Split_of_not_mem toPath slash h] at hs
  simp only [List.cons.injEq] at hs
  obtain ⟨hb, hr⟩ := hs
  subst hb hr
  obtain ⟨hb1, hb2, hb3⟩ := filepath.Split_base fromPath
  simp only [if_true, filepath.Join_single _ hb2] at hg
  obtain ⟨tl, ht1, ht2, ht3⟩ :=
    transferLoop_trace upload toPath (filepath.Split fromPath).2 3 3 0 [] rfl
  simp only [List.nil_append] at ht1
  refine ⟨_, _, (filepath.Split fromPath).2, by rw [hg], ?_, ?_, rfl,
    ⟨(filepath.Split fromPath).1, hb1.symm, hb3⟩, hb2⟩
  · rw [ht1]; exact ht3 (by decide)
  · rw [ht1]; exact ht2

theorem upload_key_is_base_filename_witness :
    slash ∉ lit "bucket" ∧ (filepath.Split (lit "/tmp/report.csv")).2 = lit "report.csv" ∧
    (∃ r tr file,
      UploadToS3 (fun (_ : Nat) (_ _ : GoString) => (none : Option Nat)) (lit "bucket")
        (lit "/tmp/report.csv") = some (r, tr) ∧
      tr.head? = some (.request 1 (lit "bucket") file) ∧
      (∀ a b k, Event.request a b k ∈ tr → b = lit "bucket" ∧ k = file) ∧
      file = (filepath.Split (lit "/tmp/report.csv")).2 ∧
      (∃ dir, lit "/tmp/report.csv" = dir ++ file ∧ (dir = [] ∨ dir.getLast? = some slash)) ∧
      slash ∉ file) :=
  ⟨by decide, by decide,
    @upload_key_is_base_filename Nat (fun _ _ _ => none) (lit "bucket")
      (lit "/tmp/report.csv") (by decide)⟩

/-! ## Validation -/

/-- C8, as stated, fails: the empty path and a path beginning with `/` pass
`validateS3Path`, the bucket returned is the empty string, and
`GetListOfFilesFromS3` goes on to send a request. -/
theorem empty_bucket_passes_validation :
    @validateS3Path Nat (strings.Split (lit "") slash) = none ∧
    initS3Variables (strings.Split (lit "") slash) = some ([], []) ∧
    @validateS3Path Nat (strings.Split (lit "/x") slash) = none ∧
    initS3Variables (strings.Split (lit "/x") slash) = some ([], lit "x") ∧
    GetListOfFilesFromS3
        (fun (_ : Nat) (_ _ : GoString) => (Except.ok [] : Except Nat (List GoString)))
        (lit "") =
      some (([], none), [.request 1 [] []]) := by
  have h1 : strings.Split (lit "") slash = [[]] := by decide
  have h2 : strings.Split (lit "/x") slash = [[], lit "x"] := by decide
  have h3 : filepath.Join [lit "x"] = lit "x" := by
    simp [filepath.Join, filepath.Clean, filepath.cleanLoop, strings.Join, lit, slash, dot]
  refine ⟨validateS3Path_Split _, ?_, validateS3Path_Split _, ?_, ?_⟩
  · rw [h1]; simp [initS3Variables, filepath.Join]
  · rw [h2]; simp [initS3Variables, h3]
  · unfold GetListOfFilesFromS3
    simp only [h1, validateS3Path, initS3Variables, List.length_cons, List.length_nil,
      ge_iff_le, le_add_iff_nonneg_left, zero_le, if_true, List.get?_cons_zero,
      List.drop_succ_cons, List.drop_zero, filepath.Join]
    rw [listLoop_ok _ _ _ _ _ _ [] (by decide) rfl]
    rfl

/-- C8, amended: every address accepted by resolution has at least one
segment, its container, which may be empty. When `validateS3Path` returns no
error on a list, the list has a first segment, which `initS3Variables` returns
as bucket; for a path string validation always passes, the bucket is the text
before the first `/`, and it is non-empty exactly when the path is non-empty
and does not begin with `/`. -/
theorem validated_path_has_container {ε : Type} (path : GoString) :
    (∀ segs : List GoString, @validateS3Path ε segs = none →
      ∃ b rest, segs = b :: rest ∧ initS3Variables segs = some (b, filepath.Join rest)) ∧
    @validateS3Path ε (strings.Split path slash) = none ∧
    ∃ bucket key, initS3Variables (strings.Split path slash) = some (bucket, key) ∧
      bucket = path.takeWhile (fun c => c ≠ slash) ∧
      (bucket ≠ [] ↔ path ≠ [] ∧ path.head? ≠ some slash) := by
  refine ⟨?_, validateS3Path_Split path, ?_⟩
  · intro segs hv
    cases segs with
    | nil => simp [validateS3Path] at hv
    | cons b rest => exact ⟨b, rest, rfl, initS3Variables_cons b rest⟩
  · obtain ⟨b, rest, hs, hi⟩ := initS3Variables_Split path
    have hh := strings.Split_head path slash
    rw [hs] at hh
    simp only [List.head?_cons, Option.some.injEq] at hh
    refine ⟨b, _, hi, hh, ?_⟩
    rw [hh]
    cases path with
    | nil => simp
    | cons c t =>
      by_cases hc : c = slash
      · simp [hc]
      · simp [hc]

end Skbn
